import Mathlib

/-!
Verification development for the SimpleChat backend.

The development shallowly embeds the data-access layer of the repository:
the multi-table object mapper (`src/db/APIHandler.ts`, the `Transaction`
class in `src/db/Serializer.ts`), the payload validator
(`src/db/Validator.ts`, `src/db2/Validator.ts`), the query-string codec
(`QueryString`), and the authentication guard (`src/lib/Auth.ts`).

Modelling conventions, used throughout:
* JS values are the inductive `Val`; JS objects are association lists
  `Obj := List (String × Val)` in property-insertion order; a missing
  property is the absence of the key (JS `undefined` as a stored value is
  `Val.undefined`).
* The hosted xata store is `Store`: one association list of records per
  collection, indexed by the `collectionID` positions used by the code,
  plus a fresh-id counter.  Record ids are naturals; a xata link value is
  `Val.ref id`.
* Asynchronous awaited calls are sequential state passing.  A fallible
  database call (`create`, `updateOrThrow`, ...) consumes one tick of an
  explicit failure schedule `fail : Nat → Bool`, which models the external
  causes (network, constraint violations) that make a call throw; a thrown
  error is `Except.error` carrying the state at the throw site.
* External collaborators (bcrypt hashing, JWT verification, Joi's internal
  format checks) are oracle parameters or simplified total functions; the
  structure that the claims depend on (which fields are required, which
  keys exist, what is thrown when) is translated from the source.
-/

namespace SimpleChat

/-- JS scalar values.  The claims never need nested arrays or objects
stored inside arrays, so array elements are scalars. -/
inductive SVal : Type where
  | str (s : String)
  | num (n : Int)
  | bool (b : Bool)
  | null
  | undefined
deriving DecidableEq, Repr

/-- JS runtime values as stored in records, payloads and query objects:
a scalar, a xata link to a record, or a flat array. -/
inductive Val : Type where
  | sv (v : SVal)
  | ref (id : Nat)
  | arr (elems : List SVal)
deriving DecidableEq, Repr

/-- Shorthand for a string value. -/
def Val.str (s : String) : Val := .sv (.str s)

/-- Shorthand for a number value. -/
def Val.num (n : Int) : Val := .sv (.num n)

/-- A JS object: an association list of properties in insertion order. -/
abbrev Obj : Type := List (String × Val)

/-- JS truthiness of a scalar. -/
def SVal.truthy : SVal → Bool
  | .str s => s ≠ ""
  | .num n => n ≠ 0
  | .bool b => b
  | .null => false
  | .undefined => false

/-- JS truthiness of a value (arrays and links are objects, hence truthy). -/
def truthy : Val → Bool
  | .sv v => v.truthy
  | .ref _ => true
  | .arr _ => true

namespace Obj

/-- Property lookup `o[k]`: the first binding of the key, if any. -/
def get? (o : Obj) (k : String) : Option Val :=
  (o.find? (fun p => p.1 == k)).map (fun p => p.2)

/-- Property assignment `o[k] = v`: replaces an existing binding in place,
otherwise appends the new binding (JS property-order semantics). -/
def set (o : Obj) (k : String) (v : Val) : Obj :=
  if o.any (fun p => p.1 == k) then
    o.map (fun p => if p.1 == k then (k, v) else p)
  else
    o ++ [(k, v)]

/-- The spread merge `\x7b...a, ...b\x7d`: the keys of `a` in order with
`b`'s overrides, followed by the keys of `b` that are not in `a`. -/
def merge (a b : Obj) : Obj :=
  (a.map (fun p =>
    match b.get? p.1 with
    | some w => (p.1, w)
    | none => p))
  ++ b.filter (fun q => !(a.any (fun p => p.1 == q.1)))

/-- The key list of an object. -/
def keys (o : Obj) : List String := o.map (fun p => p.1)

end Obj

/-- A stored record: its id together with its column payload. -/
abbrev Rec : Type := Nat × Obj

/-- One database table: records in insertion order, addressed by id. -/
abbrev Table : Type := List Rec

namespace Table

/-- Read a record by id. -/
def readId (t : Table) (i : Nat) : Option Rec :=
  t.find? (fun r => r.1 == i)

/-- Delete the record with the given id, if present. -/
def erase (t : Table) (i : Nat) : Table :=
  t.eraseP (fun r => r.1 == i)

/-- Partial update: merge a patch into every record with the given id
(xata's `update` touches exactly the columns present in the patch). -/
def updateRec (t : Table) (i : Nat) (patch : Obj) : Table :=
  t.map (fun r => if r.1 == i then (i, r.2.merge patch) else r)

end Table

/-- The hosted data store: the `collections` array of the handler/mapper
options (one table per `collectionID`), plus a fresh-id source. -/
structure Store : Type where
  tables : List Table
  nextId : Nat
deriving DecidableEq, Repr

namespace Store

/-- The table at a collection id (`collections[cid]`). -/
def table (s : Store) (cid : Nat) : Table :=
  s.tables.getD cid []

/-- Replace the table at a collection id. -/
def setTable (s : Store) (cid : Nat) (t : Table) : Store :=
  { s with tables := s.tables.set cid t }

/-- All record ids in the store are below the fresh-id counter, so that a
freshly created id never collides with an existing record. -/
def wf (s : Store) : Bool :=
  s.tables.all (fun t => t.all (fun r => r.1 < s.nextId))

/-- Read a record of a collection by a link value, as `collection.read(v)`
does when handed the value of a foreign-key field: only a link to a
present record resolves, everything else yields `null`. -/
def readVal (s : Store) (cid : Nat) (v : Option Val) : Option Rec :=
  match v with
  | some (.ref i) => Table.readId (s.table cid) i
  | _ => none

end Store

/-- Mapper state threaded through a request: the store plus the position
in the failure schedule. -/
structure St : Type where
  store : Store
  ctr : Nat
deriving DecidableEq, Repr

/-- Advance the failure-schedule counter by one consumed database call. -/
def St.tick (st : St) : St :=
  { st with ctr := st.ctr + 1 }

/-- The `collection.create(payload)` call: inserts a fresh record at the
end of the table and returns it.  The call throws (`Except.error`) when
the failure schedule says so or the collection does not exist. -/
def createOp (fail : Nat → Bool) (st : St) (cid : Nat) (payload : Obj) :
    Except St (Rec × St) :=
  if fail st.ctr ∨ st.store.tables.length ≤ cid then
    .error st.tick
  else
    .ok ((st.store.nextId, payload),
      { store :=
          { tables :=
              st.store.tables.set cid (st.store.table cid ++ [(st.store.nextId, payload)]),
            nextId := st.store.nextId + 1 },
        ctr := st.ctr + 1 })

/-- The `collection.updateOrThrow(record)` call: merges the record's
columns into the stored record with the same id and returns the updated
record.  Throws when the schedule says so, the target id is absent, or
the collection does not exist. -/
def updateOrThrowOp (fail : Nat → Bool) (st : St) (cid : Nat) (i : Nat) (patch : Obj) :
    Except St (Rec × St) :=
  if fail st.ctr ∨ st.store.tables.length ≤ cid then
    .error st.tick
  else
    match Table.readId (st.store.table cid) i with
    | none => .error st.tick
    | some r =>
      .ok ((i, r.2.merge patch),
        { store := st.store.setTable cid (Table.updateRec (st.store.table cid) i patch),
          ctr := st.ctr + 1 })

/-- The `collection.deleteOrThrow(record)` call: removes the record with
the given id.  Throws when the schedule says so or the id is absent. -/
def deleteOrThrowOp (fail : Nat → Bool) (st : St) (cid : Nat) (i : Nat) :
    Except St (Rec × St) :=
  if fail st.ctr ∨ st.store.tables.length ≤ cid then
    .error st.tick
  else
    match Table.readId (st.store.table cid) i with
    | none => .error st.tick
    | some r =>
      .ok (r, { store := st.store.setTable cid (Table.erase (st.store.table cid) i),
                ctr := st.ctr + 1 })

/-!
## Sparse component arrays

The mapper keeps the pieces of a logical object in a JS array indexed by
`collectionID` (`components[collectionID] = ...`), which may be sparse.
The embedding is `Comps`: a list of optional records, where assignment
pads with holes up to the written index.
-/

/-- A sparse JS array of records indexed by collection id. -/
abbrev Comps : Type := List (Option Rec)

/-- Sparse-array indexed assignment `a[i] = x`. -/
def setIdx (l : List (Option α)) (i : Nat) (x : α) : List (Option α) :=
  (l ++ List.replicate (i + 1 - l.length) none).set i (some x)

@[simp]
theorem setIdx_getD_self (l : List (Option α)) (i : Nat) (x : α) :
    (setIdx l i x).getD i none = some x := by
  have hlen : i < (l ++ List.replicate (i + 1 - l.length) none).length := by
    simp only [List.length_append, List.length_replicate]
    omega
  simp only [setIdx, List.getD_eq_getElem?_getD, List.getElem?_set_self hlen,
    Option.getD_some]

theorem setIdx_getD_ne (l : List (Option α)) (i j : Nat) (x : α) (h : j ≠ i) :
    (setIdx l j x).getD i none = l.getD i none := by
  simp only [setIdx, List.getD_eq_getElem?_getD, List.getElem?_set_ne h]
  rcases Nat.lt_or_ge i l.length with hi | hi
  · rw [List.getElem?_append_left hi]
  · rw [List.getElem?_append_right hi, List.getElem?_eq_none hi,
      List.getElem?_replicate]
    split <;> simp

/-- The collection relationship of the mapper options
(`CollectionMap`): the primary collection, the secondary collections to
load, and the foreign-key fields linking them, plus the total number of
collections in the `collections` array. -/
structure Config : Type where
  fromId : Nat
  load : List Nat
  keys : List String
deriving DecidableEq, Repr

/-- The `UserProfile` collection map used by the code: Profiles is the
primary collection (id 0), Users the secondary (id 1), linked by the
`user` field of the profile. -/
def userProfileConfig : Config :=
  { fromId := 0, load := [1], keys := ["user"] }

/-!
## Transaction (src/db/Serializer.ts, second module)

`Transaction.verify.byKeys`, `Transaction.create`, `Transaction.update`
with their catch-block compensations, and `Transaction.get`/`query`.
-/

namespace Transaction

/-- The key-by-key check `Transaction.verify.byKeys`: every key of
`values[collectionID]` must hold the same value in
`components[collectionID]`. -/
def verifyByKeys (comps : Comps) (vs : Obj) (cid : Nat) : Bool :=
  vs.all (fun p =>
    (match comps.getD cid none with
     | some r => r.2.get? p.1
     | none => none) = some p.2)

/-- The secondary-creation loop of `Transaction.create`: create each
secondary component, wire it into the build of the main component under
its `usingKeys` field, and verify it key by key.  On a throw, the partial
components and the state at the throw site travel in the error, as the
enclosing catch sees them. -/
def createSecondaries (fail : Nat → Bool) (values : List Obj) :
    List (Nat × String) → Obj → Comps → St → Except (Comps × St) (Obj × Comps × St)
  | [], build, comps, st => .ok (build, comps, st)
  | (cid, key) :: rest, build, comps, st =>
    match createOp fail st cid (values.getD cid []) with
    | .error st1 => .error (comps, st1)
    | .ok (r, st1) =>
      let comps1 := setIdx comps cid r
      let build1 := build.set key (Val.ref r.1)
      if verifyByKeys comps1 (values.getD cid []) cid then
        createSecondaries fail values rest build1 comps1 st1
      else
        .error (comps1, st1)

/-- One pass of the catch-block compensation of `Transaction.create`:
for every collection id with a created component, delete that component
from its table (`collections[collectionID].delete(...)`).  Each loop
iteration touches only its own table, so the loop is rendered as an
index-aware map over the tables. -/
def rollbackCreateTables (comps : Comps) : Nat → List Table → List Table
  | _, [] => []
  | i, t :: ts =>
    (match comps.getD i none with
     | some r => Table.erase t r.1
     | none => t) :: rollbackCreateTables comps (i + 1) ts

/-- The catch-block compensation of `Transaction.create` on the store. -/
def rollbackCreate (comps : Comps) (s : Store) : Store :=
  { s with tables := rollbackCreateTables comps 0 s.tables }

/-- `Transaction.create`: create the secondary components first, wiring
each into the build of the main component, then create the main
component, verifying each created component key by key; any throw runs
the compensation (delete every component created during the call) and
re-raises. -/
def create (fail : Nat → Bool) (values : List Obj) (cfg : Config) (st : St) :
    Except St (Comps × St) :=
  match createSecondaries fail values (cfg.load.zip cfg.keys)
      (values.getD cfg.fromId []) [] st with
  | .error (comps, st1) => .error { st1 with store := rollbackCreate comps st1.store }
  | .ok (build, comps, st1) =>
    match createOp fail st1 cfg.fromId build with
    | .error st2 => .error { st2 with store := rollbackCreate comps st2.store }
    | .ok (r, st2) =>
      let comps2 := setIdx comps cfg.fromId r
      if verifyByKeys comps2 (values.getD cfg.fromId []) cfg.fromId then
        .ok (comps2, st2)
      else
        .error { st2 with store := rollbackCreate comps2 st2.store }

end Transaction

/-!
## Basic facts about the store operations
-/

theorem Table.erase_append_fresh (t : Table) (i : Nat) (p : Obj)
    (h : ∀ q ∈ t, q.1 ≠ i) : Table.erase (t ++ [(i, p)]) i = t := by
  induction t with
  | nil => simp [Table.erase, List.eraseP]
  | cons q t ih =>
    have hq : (q.1 == i) = false := by
      simpa using h q (List.mem_cons_self q t)
    have ih' := ih (fun q' hq' => h q' (List.mem_cons_of_mem _ hq'))
    simp only [Table.erase, List.cons_append, List.eraseP_cons, hq, cond_false] at ih' ⊢
    rw [ih']

theorem Table.readId_append_left (t t' : Table) (i : Nat) (q : Rec)
    (h : Table.readId t i = some q) :
    Table.readId (t ++ t') i = some q := by
  simpa [Table.readId, List.find?_append, h] using Or.inl h

theorem Store.fresh_of_wf (s : Store) (cid : Nat) (hwf : s.wf = true) :
    ∀ q ∈ s.table cid, q.1 < s.nextId := by
  intro q hq
  rcases Nat.lt_or_ge cid s.tables.length with hcid | hcid
  · have hmem : s.table cid ∈ s.tables := by
      simp only [Store.table, List.getD_eq_getElem?_getD, List.getElem?_eq_getElem hcid,
        Option.getD_some]
      exact s.tables.getElem_mem hcid
    exact of_decide_eq_true
      (List.all_eq_true.mp (List.all_eq_true.mp hwf _ hmem) q hq)
  · have : s.table cid = [] := by
      simp [Store.table, List.getD_eq_getElem?_getD, List.getElem?_eq_none hcid]
    simp [this] at hq

/-- Unpacked description of a successful `create` call. -/
theorem createOp_ok (fail : Nat → Bool) (st : St) (cid : Nat) (p : Obj) (r : Rec) (st1 : St)
    (hop : createOp fail st cid p = .ok (r, st1)) :
    r = (st.store.nextId, p)
    ∧ st1.store.tables = st.store.tables.set cid (st.store.table cid ++ [(st.store.nextId, p)])
    ∧ st1.store.nextId = st.store.nextId + 1
    ∧ cid < st.store.tables.length := by
  unfold createOp at hop
  split at hop
  · exact absurd hop (by simp)
  · rename_i hcond
    injection hop with hpair
    have hr := congrArg Prod.fst hpair
    have hst := congrArg Prod.snd hpair
    dsimp only at hr hst
    refine ⟨hr.symm, ?_, ?_, by omega⟩
    · rw [← hst]
    · rw [← hst]

theorem createOp_wf (fail : Nat → Bool) (st : St) (cid : Nat) (p : Obj) (r : Rec) (st1 : St)
    (hop : createOp fail st cid p = .ok (r, st1)) (hwf : st.store.wf = true) :
    st1.store.wf = true := by
  obtain ⟨-, htab, hnext, -⟩ := createOp_ok fail st cid p r st1 hop
  rw [Store.wf, htab, hnext]
  refine List.all_eq_true.mpr (fun t ht => List.all_eq_true.mpr (fun q hq => ?_))
  rcases List.mem_or_eq_of_mem_set ht with ht' | rfl
  · have := Store.fresh_of_wf st.store cid hwf
    have hq' : q.1 < st.store.nextId := of_decide_eq_true
      (List.all_eq_true.mp (List.all_eq_true.mp hwf _ ht') q hq)
    simp only [decide_eq_true_eq]
    omega
  · rcases List.mem_append.mp hq with hq' | hq'
    · have := Store.fresh_of_wf st.store cid hwf q hq'
      simp only [decide_eq_true_eq]
      omega
    · simp only [List.mem_singleton] at hq'
      simp [hq']

theorem createOp_readId_mono (fail : Nat → Bool) (st : St) (cid : Nat) (p : Obj) (r : Rec)
    (st1 : St) (hop : createOp fail st cid p = .ok (r, st1)) (c i : Nat) (q : Rec)
    (h : Table.readId (st.store.table c) i = some q) :
    Table.readId (st1.store.table c) i = some q := by
  obtain ⟨-, htab, -, hlen⟩ := createOp_ok fail st cid p r st1 hop
  by_cases hc : c = cid
  · subst hc
    have : st1.store.table c = st.store.table c ++ [(st.store.nextId, p)] := by
      simp [Store.table, htab, List.getD_eq_getElem?_getD, List.getElem?_set_self hlen]
    rw [this]
    exact Table.readId_append_left _ _ i q h
  · have : st1.store.table c = st.store.table c := by
      simp [Store.table, htab, List.getD_eq_getElem?_getD,
        List.getElem?_set_ne (fun hh => hc hh.symm)]
    rw [this]
    exact h

/-!
## Restoration lemmas for the create compensation
-/

namespace Transaction

theorem rollbackCreateTables_congr (comps comps' : Comps) :
    ∀ (ts : List Table) (k : Nat),
    (∀ i, k ≤ i → comps.getD i none = comps'.getD i none) →
    rollbackCreateTables comps k ts = rollbackCreateTables comps' k ts
  | [], _, _ => rfl
  | t :: ts, k, h => by
    simp only [rollbackCreateTables]
    rw [h k le_rfl,
      rollbackCreateTables_congr comps comps' ts (k + 1) (fun i hi => h i (by omega))]

theorem rollbackCreateTables_none (comps : Comps) :
    ∀ (ts : List Table) (k : Nat),
    (∀ i, k ≤ i → comps.getD i none = none) →
    rollbackCreateTables comps k ts = ts
  | [], _, _ => rfl
  | t :: ts, k, h => by
    simp only [rollbackCreateTables, h k le_rfl]
    rw [rollbackCreateTables_none comps ts (k + 1) (fun i hi => h i (by omega))]

theorem rollbackCreate_nil (s : Store) : rollbackCreate [] s = s := by
  have : rollbackCreateTables [] 0 s.tables = s.tables :=
    rollbackCreateTables_none [] s.tables 0 (fun i _ => rfl)
  simp [rollbackCreate, this]

theorem rollbackCreateTables_set_append (r : Rec) :
    ∀ (ts : List Table) (comps : Comps) (k j : Nat),
    j < ts.length →
    comps.getD (k + j) none = none →
    (∀ q ∈ ts.getD j [], q.1 ≠ r.1) →
    rollbackCreateTables (setIdx comps (k + j) r) k (ts.set j (ts.getD j [] ++ [r]))
      = rollbackCreateTables comps k ts
  | [], _, _, j, hj, _, _ => by simp at hj
  | t :: ts, comps, k, 0, _, hc, hfresh => by
    simp only [Nat.add_zero] at hc ⊢
    simp only [List.getD_cons_zero] at hfresh
    simp only [List.set_cons_zero, List.getD_cons_zero, rollbackCreateTables,
      setIdx_getD_self, hc]
    rw [Table.erase_append_fresh t r.1 r.2 hfresh]
    · rw [rollbackCreateTables_congr (setIdx comps k r) comps ts (k + 1)
        (fun i hi => setIdx_getD_ne comps i k r (by omega))]
  | t :: ts, comps, k, j + 1, hj, hc, hfresh => by
    simp only [List.length_cons] at hj
    simp only [List.getD_cons_succ] at hfresh
    have hkj : k + (j + 1) = (k + 1) + j := by omega
    simp only [List.set_cons_succ, List.getD_cons_succ, rollbackCreateTables]
    rw [setIdx_getD_ne comps k (k + (j + 1)) r (by omega)]
    rw [hkj] at hc ⊢
    rw [rollbackCreateTables_set_append r ts comps (k + 1) j (by omega) hc hfresh]

theorem rollbackCreate_createOp (fail : Nat → Bool) (comps : Comps) (r : Rec)
    (st st1 : St) (cid : Nat) (payload : Obj)
    (hop : createOp fail st cid payload = .ok (r, st1))
    (hc : comps.getD cid none = none)
    (hwf : st.store.wf = true) :
    (rollbackCreate (setIdx comps cid r) st1.store).tables
      = (rollbackCreate comps st.store).tables := by
  obtain ⟨hr, htab, hnext, hlen⟩ := createOp_ok fail st cid payload r st1 hop
  have hfresh : ∀ q ∈ st.store.tables.getD cid [], q.1 ≠ r.1 := by
    intro q hq
    have := Store.fresh_of_wf st.store cid hwf q hq
    rw [hr]
    omega
  have key := rollbackCreateTables_set_append r st.store.tables comps 0 cid
    hlen (by simpa using hc) hfresh
  simp only [Nat.zero_add] at key
  rw [← hr] at htab
  simp only [rollbackCreate]
  rw [htab]
  have htable : st.store.table cid = st.store.tables.getD cid [] := rfl
  rw [htable, key]

end Transaction

theorem Table.readId_append_fresh (t : Table) (i : Nat) (p : Obj)
    (h : ∀ q ∈ t, q.1 ≠ i) : Table.readId (t ++ [(i, p)]) i = some (i, p) := by
  induction t with
  | nil => simp [Table.readId, List.find?]
  | cons q t ih =>
    have hq : (q.1 == i) = false := by
      simpa using h q (List.mem_cons_self q t)
    have ih' := ih (fun q' hq' => h q' (List.mem_cons_of_mem _ hq'))
    simp only [Table.readId, List.cons_append, List.find?_cons, hq] at ih' ⊢
    exact ih'

theorem Obj.find?_mapset_self (o : Obj) (k : String) (v : Val)
    (ha : o.any (fun q => q.1 == k) = true) :
    List.find? (fun p => p.1 == k)
      (o.map (fun p => if p.1 == k then (k, v) else p)) = some (k, v) := by
  induction o with
  | nil => simp at ha
  | cons p o ih =>
    rw [List.map_cons]
    by_cases hp : (p.1 == k) = true
    · rw [if_pos hp]
      exact List.find?_cons_of_pos _ (by simp)
    · have hp' : (p.1 == k) = false := by simpa using hp
      rw [if_neg (by simp [hp']), List.find?_cons_of_neg _ (by simp [hp'])]
      apply ih
      simpa [List.any_cons, hp'] using ha

theorem Obj.find?_mapset_ne (o : Obj) (k k' : String) (v : Val)
    (h : (k == k') = false) :
    List.find? (fun p => p.1 == k')
      (o.map (fun p => if p.1 == k then (k, v) else p))
      = List.find? (fun p => p.1 == k') o := by
  induction o with
  | nil => rfl
  | cons p o ih =>
    rw [List.map_cons]
    by_cases hp : (p.1 == k) = true
    · have hp1 : p.1 = k := by simpa using hp
      have hpk' : (p.1 == k') = false := by
        rw [hp1]
        exact h
      rw [if_pos hp, List.find?_cons_of_neg _ (by simp [h]),
        List.find?_cons_of_neg _ (by simp [hpk'])]
      exact ih
    · have hp' : (p.1 == k) = false := by simpa using hp
      rw [if_neg (by simp [hp'])]
      by_cases hpk' : (p.1 == k') = true
      · have e1 : List.find? (fun q : String × Val => q.1 == k')
            (p :: o.map (fun p => if p.1 == k then (k, v) else p)) = some p :=
          List.find?_cons_of_pos _ hpk'
        have e2 : List.find? (fun q : String × Val => q.1 == k') (p :: o) = some p :=
          List.find?_cons_of_pos _ hpk'
        rw [e1, e2]
      · have h2 : (p.1 == k') = false := by simpa using hpk'
        rw [List.find?_cons_of_neg _ (by simp [h2]),
          List.find?_cons_of_neg _ (by simp [h2])]
        exact ih

theorem Obj.get?_set_self (o : Obj) (k : String) (v : Val) :
    (o.set k v).get? k = some v := by
  unfold Obj.set
  split
  · rename_i ha
    rw [Obj.get?, Obj.find?_mapset_self o k v ha]
    rfl
  · rename_i ha
    have hnone : List.find? (fun p => p.1 == k) o = none := by
      rw [List.find?_eq_none]
      intro x hx hcontr
      exact ha (List.any_eq_true.mpr ⟨x, hx, hcontr⟩)
    simp [Obj.get?, List.find?_append, hnone, List.find?]

theorem Obj.get?_set_ne (o : Obj) (k k' : String) (v : Val) (h : k' ≠ k) :
    (o.set k v).get? k' = o.get? k' := by
  have h' : (k == k') = false := by simpa using Ne.symm h
  unfold Obj.set
  split
  · rw [Obj.get?, Obj.find?_mapset_ne o k k' v h']
    rfl
  · simp [Obj.get?, List.find?_append, List.find?, h']

namespace Transaction

/-- Everything the secondary-creation loop of `Transaction.create`
guarantees, proved by one induction: the compensation restores the
tables of the entering state, well-formedness, lengths and the fresh-id
counter evolve predictably, components and the main-record build are
only written at their own indices/keys, existing records persist, and
each processed pair got a fresh record carrying exactly its validated
values, wired into the build. -/
theorem createSecondaries_spec (fail : Nat → Bool) (values : List Obj) :
    ∀ (l : List (Nat × String)) (build : Obj) (comps : Comps) (st : St),
    st.store.wf = true →
    (∀ pr ∈ l, comps.getD pr.1 none = none) →
    (l.map Prod.fst).Nodup →
    (l.map Prod.snd).Nodup →
    (match createSecondaries fail values l build comps st with
     | .error (c, st1) =>
         (rollbackCreate c st1.store).tables = (rollbackCreate comps st.store).tables
     | .ok (b, c, st1) =>
         (rollbackCreate c st1.store).tables = (rollbackCreate comps st.store).tables
         ∧ st1.store.wf = true
         ∧ st1.store.tables.length = st.store.tables.length
         ∧ st1.store.nextId = st.store.nextId + l.length
         ∧ (∀ i, i ∉ l.map Prod.fst → c.getD i none = comps.getD i none)
         ∧ (∀ c0 i0 q, Table.readId (st.store.table c0) i0 = some q →
              Table.readId (st1.store.table c0) i0 = some q)
         ∧ (∀ k, k ∉ l.map Prod.snd → b.get? k = build.get? k)
         ∧ (∀ pr ∈ l, ∃ rid,
              c.getD pr.1 none = some (rid, values.getD pr.1 [])
              ∧ Table.readId (st1.store.table pr.1) rid
                  = some (rid, values.getD pr.1 [])
              ∧ b.get? pr.2 = some (Val.ref rid)
              ∧ st.store.nextId ≤ rid ∧ rid < st1.store.nextId))
  | [], build, comps, st, hwf, _, _, _ => by
    refine ⟨rfl, hwf, rfl, by simp, fun i _ => rfl, fun c0 i0 q h => h,
      fun k _ => rfl, fun pr hpr => absurd hpr (List.not_mem_nil pr)⟩
  | (cid, key) :: rest, build, comps, st, hwf, huntouched, hfst, hsnd => by
    have hchead : comps.getD cid none = none :=
      huntouched (cid, key) (List.mem_cons_self _ _)
    simp only [List.map_cons, List.nodup_cons] at hfst hsnd
    obtain ⟨hcid_rest, hfst'⟩ := hfst
    obtain ⟨hkey_rest, hsnd'⟩ := hsnd
    rw [createSecondaries]
    cases hop : createOp fail st cid (values.getD cid []) with
    | error st1 =>
      have hst1 : st1.store = st.store := by
        unfold createOp at hop
        split at hop
        · injection hop with h
          rw [← h]
          rfl
        · exact absurd hop (by simp)
      simp only [hst1]
    | ok res =>
      obtain ⟨r, st1⟩ := res
      dsimp only
      obtain ⟨hr, htab, hnext, hlen⟩ := createOp_ok fail st cid _ r st1 hop
      have hroll : (rollbackCreate (setIdx comps cid r) st1.store).tables
          = (rollbackCreate comps st.store).tables :=
        rollbackCreate_createOp fail comps r st st1 cid _ hop hchead hwf
      have hwf1 : st1.store.wf = true := createOp_wf fail st cid _ r st1 hop hwf
      have hmono := createOp_readId_mono fail st cid _ r st1 hop
      have huntouched1 : ∀ pr ∈ rest, (setIdx comps cid r).getD pr.1 none = none := by
        intro pr hpr
        rw [setIdx_getD_ne comps pr.1 cid r]
        · exact huntouched pr (List.mem_cons_of_mem _ hpr)
        · intro hcontr
          exact hcid_rest (hcontr ▸ List.mem_map_of_mem Prod.fst hpr)
      have IH := createSecondaries_spec fail values rest
        (build.set key (Val.ref r.1)) (setIdx comps cid r) st1 hwf1 huntouched1
        hfst' hsnd'
      split
      · -- the call threw: either deeper in the recursion or at the verify check
        rename_i c st2 heq
        split at heq
        · rw [heq] at IH
          exact IH.trans hroll
        · injection heq with hpair
          have hc := congrArg Prod.fst hpair
          have hs := congrArg Prod.snd hpair
          dsimp only at hc hs
          rw [← hc, ← hs]
          exact hroll
      · -- the whole loop succeeded
        rename_i b c st2 heq
        split at heq
        · rw [heq] at IH
          obtain ⟨ihroll, ihwf, ihlen, ihnext, ihpres, ihmono, ihbuild, ihelem⟩ := IH
          have htab1len : st1.store.tables.length = st.store.tables.length := by
            rw [htab]
            exact List.length_set st.store.tables cid _
          refine ⟨ihroll.trans hroll, ihwf, ihlen.trans htab1len,
            by simp only [List.length_cons]; omega, ?_, ?_, ?_, ?_⟩
          · intro i hi
            simp only [List.map_cons, List.mem_cons, not_or] at hi
            rw [ihpres i hi.2, setIdx_getD_ne comps i cid r (Ne.symm hi.1)]
          · intro c0 i0 q h
            exact ihmono c0 i0 q (hmono c0 i0 q h)
          · intro k hk
            simp only [List.map_cons, List.mem_cons, not_or] at hk
            rw [ihbuild k hk.2, Obj.get?_set_ne build key k (Val.ref r.1) hk.1]
          · intro pr hpr
            rcases List.mem_cons.mp hpr with heq2 | hmem
            · subst heq2
              refine ⟨r.1, ?_, ?_, ?_, ?_, ?_⟩
              · rw [ihpres cid hcid_rest, setIdx_getD_self, hr]
              · have hfresh : ∀ q ∈ st.store.table cid, q.1 ≠ r.1 := by
                  intro q hq
                  have := Store.fresh_of_wf st.store cid hwf q hq
                  rw [hr]
                  omega
                have htbl1 : st1.store.table cid
                    = st.store.table cid ++ [(st.store.nextId, values.getD cid [])] := by
                  simp [Store.table, htab, List.getD_eq_getElem?_getD,
                    List.getElem?_set_self hlen]
                have hread : Table.readId (st1.store.table cid) r.1
                    = some (r.1, values.getD cid []) := by
                  rw [htbl1, hr]
                  refine Table.readId_append_fresh _ _ _ (fun q hq => ?_)
                  have := Store.fresh_of_wf st.store cid hwf q hq
                  omega
                exact ihmono cid r.1 _ hread
              · rw [ihbuild key hkey_rest, Obj.get?_set_self]
              · rw [hr]
              · rw [hr]
                have h1 : st1.store.nextId = st.store.nextId + 1 := hnext
                have h2 : st2.store.nextId = st1.store.nextId + rest.length := ihnext
                simp only []
                omega
            · obtain ⟨rid, h1, h2, h3, h4, h5⟩ := ihelem pr hmem
              refine ⟨rid, h1, h2, h3, ?_, h5⟩
              have h6 : st1.store.nextId = st.store.nextId + 1 := hnext
              omega
        · exact absurd heq (by simp)

end Transaction

/-- Sanity conditions on a collection map, true of the only configured
map (`UserProfile`): no duplicate secondary collections or key fields,
and the primary collection is not also a secondary one. -/
def Config.okB (cfg : Config) : Bool :=
  decide cfg.load.Nodup && decide cfg.keys.Nodup
    && decide (cfg.fromId ∉ cfg.load) && decide (cfg.keys.length = cfg.load.length)

theorem createOp_error_store (fail : Nat → Bool) (st : St) (cid : Nat) (p : Obj) (st1 : St)
    (hop : createOp fail st cid p = .error st1) : st1.store = st.store := by
  unfold createOp at hop
  split at hop
  · injection hop with h
    rw [← h]
    rfl
  · exact absurd hop (by simp)

/-- Success-shape check for a multi-table create: the main component was
created after all the secondaries (its id is the highest fresh id), is in
the primary table, and for every configured secondary collection the
component holds exactly the validated values for that collection, sits in
its table, and is wired into the main record under its `usingKeys` field
by a link to its id. -/
def createdMainOk (cfg : Config) (values : List Obj) (comps : Comps) (s1 : Store)
    (origNext : Nat) : Bool :=
  match comps.getD cfg.fromId none with
  | some mainRec =>
      (mainRec.1 == origNext + cfg.load.length)
      && (Table.readId (s1.table cfg.fromId) mainRec.1 == some mainRec)
      && ((cfg.load.zip cfg.keys).all (fun pr =>
            match comps.getD pr.1 none with
            | some r =>
                (r.2 == values.getD pr.1 [])
                && (Table.readId (s1.table pr.1) r.1 == some r)
                && (mainRec.2.get? pr.2 == some (Val.ref r.1))
                && decide (r.1 < mainRec.1)
            | none => false))
  | none => false

/-- C1 (amended, Transaction path): `Transaction.create` creates every
secondary component before the main one, wires each secondary into the
main record's foreign-key field, and when any step of the create throws,
every record created during the call has been deleted again when the
error is re-raised, leaving the tables of the store exactly as before the
call. -/
theorem transaction_create_correct (fail : Nat → Bool) (values : List Obj) (cfg : Config)
    (st : St) (hcfg : cfg.okB = true) (hwf : st.store.wf = true) :
    (match Transaction.create fail values cfg st with
     | .error st1 => st1.store.tables = st.store.tables
     | .ok (comps, st1) =>
         createdMainOk cfg values comps st1.store st.store.nextId = true) := by
  simp only [Config.okB, Bool.and_eq_true, decide_eq_true_eq] at hcfg
  obtain ⟨⟨⟨hnodupL, hnodupK⟩, hfromL⟩, hlenK⟩ := hcfg
  have hmapfst : (cfg.load.zip cfg.keys).map Prod.fst = cfg.load :=
    List.map_fst_zip cfg.load cfg.keys (by omega)
  have hmapsnd : (cfg.load.zip cfg.keys).map Prod.snd = cfg.keys :=
    List.map_snd_zip cfg.load cfg.keys (by omega)
  have hziplen : (cfg.load.zip cfg.keys).length = cfg.load.length := by
    rw [List.length_zip]
    omega
  have huntouched : ∀ pr ∈ cfg.load.zip cfg.keys,
      ([] : Comps).getD pr.1 none = none := by
    intro pr _
    simp
  have SPEC := Transaction.createSecondaries_spec fail values (cfg.load.zip cfg.keys)
    (values.getD cfg.fromId []) [] st hwf huntouched
    (by rw [hmapfst]; exact hnodupL) (by rw [hmapsnd]; exact hnodupK)
  rw [Transaction.create]
  cases hsec : Transaction.createSecondaries fail values (cfg.load.zip cfg.keys)
      (values.getD cfg.fromId []) [] st with
  | error e =>
    -- a secondary create (or its verification) threw: rolled back
    obtain ⟨c1, st1⟩ := e
    rw [hsec] at SPEC
    dsimp only at SPEC ⊢
    rw [SPEC, Transaction.rollbackCreate_nil]
  | ok res =>
    -- all secondaries created
    obtain ⟨b, c, st1⟩ := res
    rw [hsec] at SPEC
    dsimp only at SPEC ⊢
    obtain ⟨sroll, swf, slen, snext, spres, smono, sbuild, selem⟩ := SPEC
    have hcfromId : c.getD cfg.fromId none = none := by
      rw [spres cfg.fromId (by rw [hmapfst]; exact hfromL)]
      simp
    cases heq2 : createOp fail st1 cfg.fromId b with
    | error st2 =>
      -- the main create threw: everything rolled back
      have hst2 : st2.store = st1.store := createOp_error_store fail st1 cfg.fromId b st2 heq2
      dsimp only
      rw [hst2, sroll, Transaction.rollbackCreate_nil]
    | ok res2 =>
      obtain ⟨r, st2⟩ := res2
      obtain ⟨hr, htab2, hnext2, hlen2⟩ := createOp_ok fail st1 cfg.fromId b r st2 heq2
      dsimp only
      have hroll2 : (Transaction.rollbackCreate (setIdx c cfg.fromId r) st2.store).tables
          = (Transaction.rollbackCreate c st1.store).tables :=
        Transaction.rollbackCreate_createOp fail c r st1 st2 cfg.fromId b heq2
          hcfromId swf
      split
      · -- the key-by-key verification of the main component failed: rolled back
        rename_i st3 heq3
        split at heq3
        · exact absurd heq3 (by simp)
        · injection heq3 with h3
          rw [← h3]
          dsimp only
          rw [hroll2, sroll, Transaction.rollbackCreate_nil]
      · -- success: check the created object shape
        rename_i comps3 st3 heq3
        split at heq3
        case isFalse => exact absurd heq3 (by simp)
        injection heq3 with h3
        have hc3 := congrArg Prod.fst h3
        have hs3 := congrArg Prod.snd h3
        dsimp only at hc3 hs3
        rw [← hc3, ← hs3]
        unfold createdMainOk
        rw [setIdx_getD_self]
        dsimp only
        have hmain1 : r.1 = st.store.nextId + cfg.load.length := by
          rw [hr]
          simp only []
          omega
        have hmainRead : Table.readId (st2.store.table cfg.fromId) r.1 = some r := by
          have hfresh : ∀ q ∈ st1.store.table cfg.fromId, q.1 ≠ r.1 := by
            intro q hq
            have := Store.fresh_of_wf st1.store cfg.fromId swf q hq
            rw [hr]
            omega
          have htbl : st2.store.table cfg.fromId
              = st1.store.table cfg.fromId ++ [(st1.store.nextId, b)] := by
            simp [Store.table, htab2, List.getD_eq_getElem?_getD,
              List.getElem?_set_self hlen2]
          rw [htbl, hr]
          refine Table.readId_append_fresh _ _ _ (fun q hq => ?_)
          have := Store.fresh_of_wf st1.store cfg.fromId swf q hq
          omega
        refine (Bool.and_eq_true _ _).mpr ⟨(Bool.and_eq_true _ _).mpr ⟨?_, ?_⟩, ?_⟩
        · simp [hmain1]
        · simp [hmainRead]
        · refine List.all_eq_true.mpr (fun pr hpr => ?_)
          obtain ⟨rid, h1, h2, h3, h4, h5⟩ := selem pr hpr
          have hprne : pr.1 ≠ cfg.fromId := by
            intro hcontr
            exact hfromL (hcontr ▸ (hmapfst ▸ List.mem_map_of_mem Prod.fst hpr))
          rw [setIdx_getD_ne c pr.1 cfg.fromId r (Ne.symm hprne), h1]
          have h2' : Table.readId (st2.store.table pr.1) rid
              = some (rid, values.getD pr.1 []) :=
            createOp_readId_mono fail st1 cfg.fromId b r st2 heq2 pr.1 rid _ h2
          have h3' : r.2.get? pr.2 = some (Val.ref rid) := by
            rw [hr]
            exact h3
          have h5' : rid < r.1 := by
            rw [hr]
            simp only []
            omega
          simp [h2', h3', h5']

/-!
## APIHandler.handleCollections.create (src/db/APIHandler.ts)

The handler's own multi-table create has the same creation order as
`Transaction.create` but neither the key-by-key verification nor any
catch block: a throw propagates at once, and whatever was created before
the throw stays in the store.
-/

namespace APIHandler

/-- The secondary-creation loop of `handleCollections.create`. -/
def createSecondariesNR (fail : Nat → Bool) (values : List Obj) :
    List (Nat × String) → Obj → Comps → St → Except St (Obj × Comps × St)
  | [], build, comps, st => .ok (build, comps, st)
  | (cid, key) :: rest, build, comps, st =>
    match createOp fail st cid (values.getD cid []) with
    | .error st1 => .error st1
    | .ok (r, st1) =>
      createSecondariesNR fail values rest (build.set key (Val.ref r.1))
        (setIdx comps cid r) st1

/-- `APIHandler.handleCollections.create`: create the secondary
components, wiring each into `completeData`, then create the main
component; no rollback on a throw. -/
def handleCollectionsCreate (fail : Nat → Bool) (values : List Obj) (cfg : Config)
    (st : St) : Except St (Comps × St) :=
  match createSecondariesNR fail values (cfg.load.zip cfg.keys)
      (values.getD cfg.fromId []) [] st with
  | .error st1 => .error st1
  | .ok (build, comps, st1) =>
    match createOp fail st1 cfg.fromId build with
    | .error st2 => .error st2
    | .ok (r, st2) => .ok (setIdx comps cfg.fromId r, st2)

end APIHandler

/-- C1: the claim as stated is false on the code.  On the
`APIHandler.handleCollections.create` path (UserProfile configuration,
starting from an empty two-table store), the creation of the secondary
Users record succeeds and the creation of the primary Profiles record
throws; the error propagates with the Users record still in its table,
so the store is not left as it was before the call. -/
theorem C1_counterexample :
    APIHandler.handleCollectionsCreate (fun c => c == 1)
        [[("username", Val.str "u")], [("email", Val.str "e")]]
        userProfileConfig ⟨⟨[[], []], 0⟩, 0⟩
      = .error ⟨⟨[[], [(0, [("email", Val.str "e")])]], 1⟩, 2⟩
    ∧ ([[], [(0, [("email", Val.str "e")])]] : List Table) ≠ [[], []] := by
  refine ⟨?_, by decide⟩
  rfl

/-- C1 (amended): on the `Transaction.create` path of the mapper the
claim holds: the secondaries are created first and wired by foreign key
into the main record, which is created last; and if any step throws,
every record created during the call is deleted again before the error
is re-raised, leaving the tables of the store as they were. -/
theorem C1_transaction_create (fail : Nat → Bool) (values : List Obj) (cfg : Config)
    (st : St) (hcfg : cfg.okB = true) (hwf : st.store.wf = true) :
    (match Transaction.create fail values cfg st with
     | .error st1 => st1.store.tables = st.store.tables
     | .ok (comps, st1) =>
         createdMainOk cfg values comps st1.store st.store.nextId = true) :=
  transaction_create_correct fail values cfg st hcfg hwf

/-- Witness for C1: a concrete successful create under the UserProfile
configuration, and a concrete failing one whose state is restored. -/
theorem C1_transaction_create_witness :
    (userProfileConfig.okB = true ∧ (Store.mk [[], []] 0).wf = true)
    ∧ createdMainOk userProfileConfig
        [[("username", Val.str "u")], [("email", Val.str "e")]]
        [some (1, [("username", Val.str "u"), ("user", Val.ref 0)]),
         some (0, [("email", Val.str "e")])]
        ⟨[[(1, [("username", Val.str "u"), ("user", Val.ref 0)])],
          [(0, [("email", Val.str "e")])]], 2⟩ 0 = true
    ∧ (match Transaction.create (fun c => c == 1)
          [[("username", Val.str "u")], [("email", Val.str "e")]]
          userProfileConfig ⟨⟨[[], []], 0⟩, 0⟩ with
       | .error st1 => st1.store.tables = [[], []]
       | .ok (comps, st1) =>
           createdMainOk userProfileConfig
             [[("username", Val.str "u")], [("email", Val.str "e")]]
             comps st1.store 0 = true) :=
  ⟨⟨by decide, by decide⟩,
   C1_transaction_create (fun _ => false)
     [[("username", Val.str "u")], [("email", Val.str "e")]]
     userProfileConfig ⟨⟨[[], []], 0⟩, 0⟩ (by decide) (by decide),
   C1_transaction_create (fun c => c == 1)
     [[("username", Val.str "u")], [("email", Val.str "e")]]
     userProfileConfig ⟨⟨[[], []], 0⟩, 0⟩ (by decide) (by decide)⟩

/-!
## The multi-table query loop

`Transaction.query` (src/db/Serializer.ts) and
`APIHandler.handleCollections.query` (src/db/APIHandler.ts) run the same
loop: fetch a pagination window of main records, and for each main
record read every secondary record through the main record's `usingKeys`
field, dropping the whole object as soon as one read comes back null.
The loop is embedded once.
-/

/-- `getMany` with a pagination window, on a table. -/
def getMany (t : Table) (size offset : Nat) : List Rec :=
  (t.drop offset).take size

/-- The secondary-record reads for one main record. -/
def resolveSecondaries (s : Store) (mainRec : Rec) :
    List (Nat × String) → Comps → Option Comps
  | [], obj => some obj
  | (cid, key) :: rest, obj =>
    match s.readVal cid (mainRec.2.get? key) with
    | none => none
    | some r => resolveSecondaries s mainRec rest (setIdx obj cid r)

/-- The object-assembly loop over the fetched main records. -/
def queryLoop (s : Store) (cfg : Config) : List Rec → List Comps
  | [] => []
  | m :: rest =>
    match resolveSecondaries s m (cfg.load.zip cfg.keys) (setIdx [] cfg.fromId m) with
    | some obj => obj :: queryLoop s cfg rest
    | none => queryLoop s cfg rest

/-- `Transaction.query` and `handleCollections.query`: the pagination
window of the primary table run through the assembly loop. -/
def Transaction.query (s : Store) (cfg : Config) (size offset : Nat) : List Comps :=
  queryLoop s cfg (getMany (s.table cfg.fromId) size offset)

/-- Completeness check for one assembled object: it holds a main record
that is one of the fetched ones, and for every configured secondary
collection a present (non-null) record, equal to what the store resolves
for the main record's key field. -/
def queryObjOk (s : Store) (cfg : Config) (fetched : List Rec) (obj : Comps) : Bool :=
  match obj.getD cfg.fromId none with
  | some m =>
      decide (m ∈ fetched)
      && ((cfg.load.zip cfg.keys).all (fun pr =>
            (obj.getD pr.1 none).isSome
            && (obj.getD pr.1 none == s.readVal pr.1 (m.2.get? pr.2))))
  | none => false

theorem resolveSecondaries_spec (s : Store) (m : Rec) :
    ∀ (l : List (Nat × String)) (obj obj' : Comps),
    (l.map Prod.fst).Nodup →
    resolveSecondaries s m l obj = some obj' →
    (∀ i, i ∉ l.map Prod.fst → obj'.getD i none = obj.getD i none)
    ∧ (∀ pr ∈ l, ∃ r, obj'.getD pr.1 none = some r
        ∧ s.readVal pr.1 (m.2.get? pr.2) = some r)
  | [], obj, obj', _, h => by
    injection h with h
    exact ⟨fun i _ => by rw [h], fun pr hpr => absurd hpr (List.not_mem_nil pr)⟩
  | (cid, key) :: rest, obj, obj', hnodup, h => by
    simp only [List.map_cons, List.nodup_cons] at hnodup
    obtain ⟨hcid_rest, hnodup'⟩ := hnodup
    rw [resolveSecondaries] at h
    cases hread : s.readVal cid (m.2.get? key) with
    | none => rw [hread] at h; exact absurd h (by simp)
    | some r =>
      rw [hread] at h
      obtain ⟨ihpres, ihelem⟩ := resolveSecondaries_spec s m rest
        (setIdx obj cid r) obj' hnodup' h
      constructor
      · intro i hi
        simp only [List.map_cons, List.mem_cons, not_or] at hi
        rw [ihpres i hi.2, setIdx_getD_ne obj i cid r (Ne.symm hi.1)]
      · intro pr hpr
        rcases List.mem_cons.mp hpr with heq | hmem
        · subst heq
          exact ⟨r, by rw [ihpres cid hcid_rest, setIdx_getD_self], hread⟩
        · exact ihelem pr hmem

theorem queryLoop_mem (s : Store) (cfg : Config) :
    ∀ (ms : List Rec) (obj : Comps), obj ∈ queryLoop s cfg ms →
    ∃ m ∈ ms, resolveSecondaries s m (cfg.load.zip cfg.keys)
        (setIdx [] cfg.fromId m) = some obj
  | [], obj, h => absurd h (List.not_mem_nil obj)
  | m :: rest, obj, h => by
    rw [queryLoop] at h
    cases hres : resolveSecondaries s m (cfg.load.zip cfg.keys)
        (setIdx [] cfg.fromId m) with
    | none =>
      rw [hres] at h
      obtain ⟨m', hm', hres'⟩ := queryLoop_mem s cfg rest obj h
      exact ⟨m', List.mem_cons_of_mem _ hm', hres'⟩
    | some obj0 =>
      rw [hres] at h
      rcases List.mem_cons.mp h with heq | hmem
      · exact ⟨m, List.mem_cons_self _ _, heq ▸ hres⟩
      · obtain ⟨m', hm', hres'⟩ := queryLoop_mem s cfg rest obj hmem
        exact ⟨m', List.mem_cons_of_mem _ hm', hres'⟩

theorem queryLoop_mains (s : Store) (cfg : Config)
    (hfrom : cfg.fromId ∉ (cfg.load.zip cfg.keys).map Prod.fst)
    (hnodup : ((cfg.load.zip cfg.keys).map Prod.fst).Nodup) :
    ∀ (ms : List Rec),
    (queryLoop s cfg ms).map (fun obj => obj.getD cfg.fromId none)
      = (ms.filter (fun m => (resolveSecondaries s m (cfg.load.zip cfg.keys)
          (setIdx [] cfg.fromId m)).isSome)).map some
  | [] => rfl
  | m :: rest => by
    rw [queryLoop, List.filter_cons]
    cases hres : resolveSecondaries s m (cfg.load.zip cfg.keys)
        (setIdx [] cfg.fromId m) with
    | none =>
      simp only [Option.isSome_none, Bool.false_eq_true, if_false]
      exact queryLoop_mains s cfg hfrom hnodup rest
    | some obj =>
      simp only [Option.isSome_some, if_true, List.map_cons]
      have hmain : obj.getD cfg.fromId none = some m := by
        obtain ⟨hpres, -⟩ := resolveSecondaries_spec s m (cfg.load.zip cfg.keys)
          (setIdx [] cfg.fromId m) obj hnodup hres
        rw [hpres cfg.fromId hfrom, setIdx_getD_self]
      rw [hmain, queryLoop_mains s cfg hfrom hnodup rest]

/-- C2: every logical object assembled by the multi-table query holds a
non-null record for the primary collection and for every configured
secondary collection, obtained by resolving the main record's key
fields; main records whose references do not resolve are omitted; and the
returned objects keep the relative order of the fetched main records. -/
theorem C2_query_objects (s : Store) (cfg : Config) (size offset : Nat)
    (hcfg : cfg.okB = true) :
    (Transaction.query s cfg size offset).all
        (queryObjOk s cfg (getMany (s.table cfg.fromId) size offset)) = true
    ∧ (Transaction.query s cfg size offset).map (fun obj => obj.getD cfg.fromId none)
        = ((getMany (s.table cfg.fromId) size offset).filter
            (fun m => (resolveSecondaries s m (cfg.load.zip cfg.keys)
                (setIdx [] cfg.fromId m)).isSome)).map some := by
  simp only [Config.okB, Bool.and_eq_true, decide_eq_true_eq] at hcfg
  obtain ⟨⟨⟨hnodupL, hnodupK⟩, hfromL⟩, hlenK⟩ := hcfg
  have hmapfst : (cfg.load.zip cfg.keys).map Prod.fst = cfg.load :=
    List.map_fst_zip cfg.load cfg.keys (by omega)
  have hfrom : cfg.fromId ∉ (cfg.load.zip cfg.keys).map Prod.fst := by
    rw [hmapfst]
    exact hfromL
  have hnodup : ((cfg.load.zip cfg.keys).map Prod.fst).Nodup := by
    rw [hmapfst]
    exact hnodupL
  constructor
  · refine List.all_eq_true.mpr (fun obj hobj => ?_)
    obtain ⟨m, hm, hres⟩ := queryLoop_mem s cfg _ obj hobj
    obtain ⟨hpres, helem⟩ := resolveSecondaries_spec s m (cfg.load.zip cfg.keys)
      (setIdx [] cfg.fromId m) obj hnodup hres
    have hmain : obj.getD cfg.fromId none = some m := by
      rw [hpres cfg.fromId hfrom, setIdx_getD_self]
    rw [queryObjOk, hmain]
    refine (Bool.and_eq_true _ _).mpr ⟨by simpa using hm, ?_⟩
    refine List.all_eq_true.mpr (fun pr hpr => ?_)
    obtain ⟨r, hr1, hr2⟩ := helem pr hpr
    rw [hr1, hr2]
    simp
  · exact queryLoop_mains s cfg hfrom hnodup _

/-- Witness for C2: a store with one resolvable profile and one dangling
one; the query returns exactly the resolvable object, in order. -/
theorem C2_query_objects_witness :
    userProfileConfig.okB = true
    ∧ ((Transaction.query
          ⟨[[(0, [("user", Val.ref 2)]), (1, [("user", Val.ref 9)])],
            [(2, [("email", Val.str "e")])]], 10⟩
          userProfileConfig 5 0).all
        (queryObjOk
          ⟨[[(0, [("user", Val.ref 2)]), (1, [("user", Val.ref 9)])],
            [(2, [("email", Val.str "e")])]], 10⟩
          userProfileConfig
          (getMany [(0, [("user", Val.ref 2)]), (1, [("user", Val.ref 9)])] 5 0)) = true
      ∧ (Transaction.query
          ⟨[[(0, [("user", Val.ref 2)]), (1, [("user", Val.ref 9)])],
            [(2, [("email", Val.str "e")])]], 10⟩
          userProfileConfig 5 0).map (fun obj => obj.getD 0 none)
        = [some (0, [("user", Val.ref 2)])]) := by
  refine ⟨by decide, ?_⟩
  have h := C2_query_objects
    ⟨[[(0, [("user", Val.ref 2)]), (1, [("user", Val.ref 9)])],
      [(2, [("email", Val.str "e")])]], 10⟩
    userProfileConfig 5 0 (by decide)
  exact ⟨h.1, h.2.trans (by rfl)⟩

/-!
## Merge and update-compensation lemmas

`Transaction.update` compensates a failed update by writing the
originally read record back with a partial-update call.  The write-back
restores the record exactly when the patch introduced no new columns —
true of schema-typed records, whose column set is fixed.
-/

/-- Every key of `b` is a key of `a` (patch compatible with record). -/
def Obj.keysSub (b a : Obj) : Bool :=
  b.all (fun q => a.any (fun p => p.1 == q.1))

theorem Obj.get?_mem_nodup (a : Obj) (hnodup : a.keys.Nodup) (p : String × Val)
    (hp : p ∈ a) : a.get? p.1 = some p.2 := by
  induction a with
  | nil => exact absurd hp (List.not_mem_nil p)
  | cons q a ih =>
    simp only [Obj.keys, List.map_cons, List.nodup_cons] at hnodup
    rcases List.mem_cons.mp hp with heq | hmem
    · subst heq
      have e1 : List.find? (fun q : String × Val => q.1 == p.1) (p :: a) = some p :=
        List.find?_cons_of_pos _ (by simp)
      rw [Obj.get?, e1]
      rfl
    · have hq : (q.1 == p.1) = false := by
        have : p.1 ∈ a.map Prod.fst := List.mem_map_of_mem Prod.fst hmem
        have hne : q.1 ≠ p.1 := fun hcontr => hnodup.1 (hcontr ▸ this)
        simpa using hne
      rw [Obj.get?, List.find?_cons_of_neg _ (by simp [hq])]
      exact ih hnodup.2 hmem

theorem Obj.merge_eq_map (a b : Obj) (hsub : Obj.keysSub b a = true) :
    a.merge b = a.map (fun p =>
      match b.get? p.1 with
      | some w => (p.1, w)
      | none => p) := by
  rw [Obj.merge]
  have hfil : b.filter (fun q => !(a.any (fun p => p.1 == q.1))) = [] := by
    rw [List.filter_eq_nil_iff]
    intro q hq
    have := List.all_eq_true.mp hsub q hq
    simp only [this, Bool.not_true]
    simp
  rw [hfil, List.append_nil]

theorem Obj.fst_mergeFun (b : Obj) (p : String × Val) :
    (match b.get? p.1 with
     | some w => (p.1, w)
     | none => p).1 = p.1 := by
  cases b.get? p.1 <;> rfl

theorem Obj.merge_restore (a b : Obj) (hnodup : a.keys.Nodup)
    (hsub : Obj.keysSub b a = true) : (a.merge b).merge a = a := by
  rw [Obj.merge_eq_map a b hsub]
  rw [Obj.merge]
  have hfil : a.filter (fun q =>
      !((a.map (fun p => match b.get? p.1 with | some w => (p.1, w) | none => p)).any
        (fun p => p.1 == q.1))) = [] := by
    rw [List.filter_eq_nil_iff]
    intro q hq
    have hmem : (match b.get? q.1 with | some w => (q.1, w) | none => q)
        ∈ a.map (fun p => match b.get? p.1 with | some w => (p.1, w) | none => p) :=
      List.mem_map_of_mem _ hq
    have hany : (a.map (fun p => match b.get? p.1 with | some w => (p.1, w) | none => p)).any
        (fun p => p.1 == q.1) = true := by
      refine List.any_eq_true.mpr ⟨_, hmem, ?_⟩
      rw [Obj.fst_mergeFun]
      simp
    simp [hany]
  rw [hfil, List.append_nil, List.map_map]
  have hid : ∀ p ∈ a,
      ((fun p => match a.get? p.1 with | some w => (p.1, w) | none => p) ∘
       (fun p => match b.get? p.1 with | some w => (p.1, w) | none => p)) p = p := by
    intro p hp
    have hget : a.get? p.1 = some p.2 := Obj.get?_mem_nodup a hnodup p hp
    simp only [Function.comp]
    rw [show (match b.get? p.1 with | some w => (p.1, w) | none => p)
        = ((match b.get? p.1 with | some w => (p.1, w) | none => p).1,
           (match b.get? p.1 with | some w => (p.1, w) | none => p).2) from rfl,
      Obj.fst_mergeFun, hget]
  calc a.map _ = a.map id := List.map_congr_left hid
    _ = a := List.map_id a

theorem Table.readId_some (t : Table) (i : Nat) (r : Rec)
    (h : Table.readId t i = some r) : r.1 = i ∧ r ∈ t := by
  refine ⟨?_, List.mem_of_find?_eq_some h⟩
  have := List.find?_some h
  simpa using this

theorem Table.updateRec_not_mem (t : Table) (i : Nat) (patch : Obj)
    (h : ∀ r ∈ t, r.1 ≠ i) : Table.updateRec t i patch = t := by
  induction t with
  | nil => rfl
  | cons q t ih =>
    have hq : (q.1 == i) = false := by
      simpa using h q (List.mem_cons_self q t)
    rw [Table.updateRec, List.map_cons]
    simp only [hq, Bool.false_eq_true, if_false]
    rw [show List.map (fun r => if r.1 == i then (i, r.2.merge patch) else r) t
        = Table.updateRec t i patch from rfl,
      ih (fun r hr => h r (List.mem_cons_of_mem _ hr))]

theorem Table.updateRec_restore (t : Table) (i : Nat) (a b : Obj)
    (hnodupIds : (t.map Prod.fst).Nodup)
    (hread : Table.readId t i = some (i, a))
    (hnodupA : a.keys.Nodup) (hsub : Obj.keysSub b a = true) :
    Table.updateRec (Table.updateRec t i b) i a = t := by
  induction t with
  | nil => rfl
  | cons q t ih =>
    simp only [List.map_cons, List.nodup_cons] at hnodupIds
    by_cases hq : (q.1 == i) = true
    · have hq1 : q.1 = i := by simpa using hq
      have hqa : q = (i, a) := by
        have e1 : List.find? (fun r : Rec => r.1 == i) (q :: t) = some q :=
          List.find?_cons_of_pos _ hq
        rw [Table.readId, e1] at hread
        exact Option.some.inj hread
      have hnomem : ∀ r ∈ t, r.1 ≠ i := by
        intro r hr hcontr
        exact hnodupIds.1 (hq1 ▸ hcontr ▸ List.mem_map_of_mem Prod.fst hr)
      have hinner : Table.updateRec (q :: t) i b = (i, q.2.merge b) :: t := by
        rw [Table.updateRec, List.map_cons]
        simp only [hq, if_true]
        rw [show List.map (fun r => if r.1 == i then (i, r.2.merge b) else r) t
            = Table.updateRec t i b from rfl,
          Table.updateRec_not_mem t i b hnomem]
      rw [hinner, Table.updateRec, List.map_cons]
      dsimp only
      simp only [beq_self_eq_true, if_true]
      rw [show List.map (fun r => if r.1 == i then (i, r.2.merge a) else r) t
          = Table.updateRec t i a from rfl,
        Table.updateRec_not_mem t i a hnomem]
      rw [hqa]
      dsimp only
      rw [Obj.merge_restore a b hnodupA hsub]
    · have hq' : (q.1 == i) = false := by simpa using hq
      have hread' : Table.readId t i = some (i, a) := by
        rw [Table.readId] at hread ⊢
        rwa [List.find?_cons_of_neg _ (by simp [hq'])] at hread
      have hinner : Table.updateRec (q :: t) i b = q :: Table.updateRec t i b := by
        rw [Table.updateRec, List.map_cons]
        simp only [hq', Bool.false_eq_true, if_false]
        rfl
      rw [hinner, Table.updateRec, List.map_cons]
      simp only [hq', Bool.false_eq_true, if_false]
      rw [show List.map (fun r => if r.1 == i then (i, r.2.merge a) else r)
            (Table.updateRec t i b) = Table.updateRec (Table.updateRec t i b) i a from rfl,
        ih hnodupIds.2 hread']

/-!
## Transaction.get and Transaction.update (src/db/Serializer.ts)
-/

namespace Transaction

/-- `Transaction.get`: read the main record by id with `readOrThrow`,
then every secondary through the main record's key fields; the catch
block turns any throw into the empty array. -/
def get (s : Store) (cfg : Config) (id : Nat) : Comps :=
  match Table.readId (s.table cfg.fromId) id with
  | none => []
  | some m =>
    match resolveSecondaries s m (cfg.load.zip cfg.keys) (setIdx [] cfg.fromId m) with
    | some comps => comps
    | none => []

/-- The per-collection loop of `Transaction.update`: for every collection
id (in `collections` order), if the input supplies values for it, persist
the merged component with `updateOrThrow` and verify it key by key.  The
partial updated-components array and the state travel in the error. -/
def updateLoop (fail : Nat → Bool) (values : List (Option Obj)) (comps : Comps) :
    List Nat → Comps → St → Except (Comps × St) (Comps × St)
  | [], upd, st => .ok (upd, st)
  | cid :: rest, upd, st =>
    match values.getD cid none with
    | none => updateLoop fail values comps rest upd st
    | some vs =>
      match comps.getD cid none with
      | none =>
        -- `updateOrThrow` on a merged object with no id throws at once
        .error (upd, st.tick)
      | some c =>
        match updateOrThrowOp fail st cid c.1 (c.2.merge vs) with
        | .error st1 => .error (upd, st1)
        | .ok (r, st1) =>
          if verifyByKeys (setIdx upd cid r) vs cid then
            updateLoop fail values comps rest (setIdx upd cid r) st1
          else
            .error (setIdx upd cid r, st1)

/-- The catch-block compensation of `Transaction.update`: for every
collection with an updated component, write the originally read
component back with a partial update.  Each iteration touches only its
own table. -/
def rollbackUpdateTables (upd comps : Comps) : Nat → List Table → List Table
  | _, [] => []
  | i, t :: ts =>
    (match upd.getD i none, comps.getD i none with
     | some _, some c => Table.updateRec t c.1 c.2
     | _, _ => t) :: rollbackUpdateTables upd comps (i + 1) ts

/-- The compensation on the store. -/
def rollbackUpdate (upd comps : Comps) (s : Store) : Store :=
  { s with tables := rollbackUpdateTables upd comps 0 s.tables }

/-- The return value of `Transaction.update`: the read components with
the updated ones substituted in
(`components.map((c, cid) => updated[cid] or c)`). -/
def overrideComps (upd : Comps) : Nat → Comps → Comps
  | _, [] => []
  | i, c :: cs =>
    (match upd.getD i none with
     | some r => some r
     | none => c) :: overrideComps upd (i + 1) cs

/-- `Transaction.update`: read the object's components, update component
by component where the input supplies values, and on any throw write the
original components back before re-raising. -/
def update (fail : Nat → Bool) (id : Nat) (values : List (Option Obj))
    (cfg : Config) (st : St) : Except St (Comps × St) :=
  let comps := get st.store cfg id
  match updateLoop fail values comps (List.range st.store.tables.length) [] st with
  | .ok (upd, st1) => .ok (overrideComps upd 0 comps, st1)
  | .error (upd, st1) =>
    .error { st1 with store := rollbackUpdate upd comps st1.store }

end Transaction

/-- Per-table record-id uniqueness. -/
def Store.wfIds (s : Store) : Bool :=
  s.tables.all (fun t => decide ((t.map Prod.fst).Nodup))

/-- Every stored record has pairwise distinct column names. -/
def Store.wfRecs (s : Store) : Bool :=
  s.tables.all (fun t => t.all (fun r => decide r.2.keys.Nodup))

/-- Every supplied patch only touches columns that its table's records
already have (schema-typed patches and records). -/
def Store.patchCompat (s : Store) (values : List (Option Obj)) : Bool :=
  (List.range s.tables.length).all (fun cid =>
    match values.getD cid none with
    | some vs => (s.table cid).all (fun r => Obj.keysSub vs r.2)
    | none => true)

theorem getD_set_self (l : List α) (j : Nat) (x d : α) (h : j < l.length) :
    (l.set j x).getD j d = x := by
  simp [List.getD_eq_getElem?_getD, List.getElem?_set_self h]

theorem getD_set_ne (l : List α) (j j' : Nat) (x d : α) (h : j ≠ j') :
    (l.set j x).getD j' d = l.getD j' d := by
  simp [List.getD_eq_getElem?_getD, List.getElem?_set_ne h]

theorem Obj.keysSub_merge (a vs : Obj) (h : Obj.keysSub vs a = true) :
    Obj.keysSub (a.merge vs) a = true := by
  rw [Obj.merge_eq_map a vs h, Obj.keysSub]
  refine List.all_eq_true.mpr (fun q hq => ?_)
  obtain ⟨p, hp, hfq⟩ := List.mem_map.mp hq
  refine List.any_eq_true.mpr ⟨p, hp, ?_⟩
  rw [← hfq, Obj.fst_mergeFun]
  simp

theorem updateOrThrowOp_ok (fail : Nat → Bool) (st : St) (cid i : Nat) (patch : Obj)
    (r : Rec) (st1 : St)
    (hop : updateOrThrowOp fail st cid i patch = .ok (r, st1)) :
    ∃ c0, Table.readId (st.store.table cid) i = some c0
      ∧ r = (i, c0.2.merge patch)
      ∧ st1.store.tables
          = st.store.tables.set cid (Table.updateRec (st.store.table cid) i patch)
      ∧ st1.store.nextId = st.store.nextId
      ∧ cid < st.store.tables.length := by
  unfold updateOrThrowOp at hop
  split at hop
  · exact absurd hop (by simp)
  · rename_i hcond
    cases hread : Table.readId (st.store.table cid) i with
    | none => rw [hread] at hop; exact absurd hop (by simp)
    | some c0 =>
      rw [hread] at hop
      injection hop with hpair
      have hr := congrArg Prod.fst hpair
      have hst := congrArg Prod.snd hpair
      dsimp only at hr hst
      refine ⟨c0, rfl, hr.symm, ?_, ?_, by omega⟩
      · rw [← hst]
        rfl
      · rw [← hst]
        rfl

theorem updateOrThrowOp_error_store (fail : Nat → Bool) (st : St) (cid i : Nat)
    (patch : Obj) (st1 : St)
    (hop : updateOrThrowOp fail st cid i patch = .error st1) : st1.store = st.store := by
  unfold updateOrThrowOp at hop
  split at hop
  · injection hop with h
    rw [← h]
    rfl
  · split at hop
    · injection hop with h
      rw [← h]
      rfl
    · exact absurd hop (by simp)

namespace Transaction

theorem rollbackUpdateTables_none (upd comps : Comps) :
    ∀ (ts : List Table) (k : Nat),
    (∀ i, k ≤ i → upd.getD i none = none) →
    rollbackUpdateTables upd comps k ts = ts
  | [], _, _ => rfl
  | t :: ts, k, h => by
    simp only [rollbackUpdateTables, h k le_rfl]
    rw [rollbackUpdateTables_none upd comps ts (k + 1) (fun i hi => h i (by omega))]

theorem rollbackUpdateTables_congr (upd upd' comps : Comps) :
    ∀ (ts : List Table) (k : Nat),
    (∀ i, k ≤ i → upd.getD i none = upd'.getD i none) →
    rollbackUpdateTables upd comps k ts = rollbackUpdateTables upd' comps k ts
  | [], _, _ => rfl
  | t :: ts, k, h => by
    simp only [rollbackUpdateTables]
    rw [h k le_rfl,
      rollbackUpdateTables_congr upd upd' comps ts (k + 1) (fun i hi => h i (by omega))]

theorem rollbackUpdateTables_set (r : Rec) (comps : Comps) :
    ∀ (ts : List Table) (upd : Comps) (k j : Nat) (t' : Table),
    j < ts.length →
    upd.getD (k + j) none = none →
    (match comps.getD (k + j) none with
     | some c => Table.updateRec t' c.1 c.2 = ts.getD j []
     | none => t' = ts.getD j []) →
    rollbackUpdateTables (setIdx upd (k + j) r) comps k (ts.set j t')
      = rollbackUpdateTables upd comps k ts
  | [], _, _, j, _, hj, _, _ => by simp at hj
  | t :: ts, upd, k, 0, t', _, hu, hrestore => by
    simp only [Nat.add_zero] at hu hrestore ⊢
    simp only [List.getD_cons_zero] at hrestore
    simp only [List.set_cons_zero, rollbackUpdateTables, setIdx_getD_self, hu]
    have htail : rollbackUpdateTables (setIdx upd k r) comps (k + 1) ts
        = rollbackUpdateTables upd comps (k + 1) ts :=
      rollbackUpdateTables_congr _ _ comps ts (k + 1)
        (fun i hi => setIdx_getD_ne upd i k r (by omega))
    rw [htail]
    cases hc : comps.getD k none with
    | some c =>
      rw [hc] at hrestore
      simp only [hc, hrestore]
    | none =>
      rw [hc] at hrestore
      simp only [hc, hrestore]
  | t :: ts, upd, k, j + 1, t', hj, hu, hrestore => by
    simp only [List.length_cons] at hj
    simp only [List.getD_cons_succ] at hrestore
    have hkj : k + (j + 1) = (k + 1) + j := by omega
    simp only [List.set_cons_succ, rollbackUpdateTables]
    rw [setIdx_getD_ne upd k (k + (j + 1)) r (by omega)]
    rw [hkj] at hu hrestore ⊢
    rw [rollbackUpdateTables_set r comps ts upd (k + 1) j t' (by omega) hu hrestore]

theorem overrideComps_getD (upd : Comps) :
    ∀ (cs : Comps) (k j : Nat), upd.getD (k + j) none = none →
    (overrideComps upd k cs).getD j none = cs.getD j none
  | [], _, _, _ => by simp [overrideComps]
  | c :: cs, k, 0, h => by
    simp only [Nat.add_zero, List.getD_eq_getElem?_getD] at h
    simp [overrideComps, h]
  | c :: cs, k, j + 1, h => by
    have hkj : k + (j + 1) = (k + 1) + j := by omega
    rw [hkj] at h
    simp only [overrideComps, List.getD_cons_succ]
    exact overrideComps_getD upd cs (k + 1) j h

theorem resolveSecondaries_entries (s : Store) (m : Rec) :
    ∀ (l : List (Nat × String)) (obj obj' : Comps),
    resolveSecondaries s m l obj = some obj' →
    (∀ cid r, obj.getD cid none = some r → Table.readId (s.table cid) r.1 = some r) →
    ∀ cid r, obj'.getD cid none = some r → Table.readId (s.table cid) r.1 = some r
  | [], obj, obj', h, hbase => by
    injection h with h
    rw [← h]
    exact hbase
  | (cid0, key) :: rest, obj, obj', h, hbase => by
    rw [resolveSecondaries] at h
    cases hread : s.readVal cid0 (m.2.get? key) with
    | none => rw [hread] at h; exact absurd h (by simp)
    | some r0 =>
      rw [hread] at h
      refine resolveSecondaries_entries s m rest (setIdx obj cid0 r0) obj' h ?_
      intro cid r hr
      by_cases hc : cid = cid0
      · subst hc
        rw [setIdx_getD_self] at hr
        injection hr with hr
        subst hr
        cases hv : m.2.get? key with
        | none =>
          rw [hv] at hread
          simp [Store.readVal] at hread
        | some v =>
          rw [hv] at hread
          cases v with
          | ref i =>
            simp only [Store.readVal] at hread
            obtain ⟨hfst, -⟩ := Table.readId_some _ i r0 hread
            rw [hfst]
            exact hread
          | sv v => simp [Store.readVal] at hread
          | arr es => simp [Store.readVal] at hread
      · rw [setIdx_getD_ne obj cid cid0 r0 (fun hcontr => hc hcontr.symm)] at hr
        exact hbase cid r hr

theorem get_entries (s : Store) (cfg : Config) (id : Nat) :
    ∀ cid r, (get s cfg id).getD cid none = some r →
    Table.readId (s.table cid) r.1 = some r := by
  intro cid r hr
  rw [get] at hr
  split at hr
  · simp at hr
  · rename_i m hmain
    split at hr
    · rename_i comps hres
      refine resolveSecondaries_entries s m _ _ comps hres ?_ cid r hr
      intro cid' r' hr'
      by_cases hc : cid' = cfg.fromId
      · subst hc
        rw [setIdx_getD_self] at hr'
        have hmr : m = r' := Option.some.inj hr'
        obtain ⟨hfst, -⟩ := Table.readId_some _ id m hmain
        rw [← hmr, hfst]
        exact hmain
      · rw [setIdx_getD_ne [] cid' cfg.fromId m (fun hcontr => hc hcontr.symm)] at hr'
        simp at hr'
    · simp at hr

end Transaction

namespace Transaction

/-- Everything the per-collection update loop guarantees, by one
induction: the compensation restores the entering tables at any throw
site, and tables for which no values were supplied (or that are not
visited) keep their contents, as does the updated-components array. -/
theorem updateLoop_spec (fail : Nat → Bool) (values : List (Option Obj))
    (comps : Comps) (T0 : List Table) :
    ∀ (l : List Nat) (upd : Comps) (st : St),
    l.Nodup →
    rollbackUpdateTables upd comps 0 st.store.tables = T0 →
    (∀ cid ∈ l, upd.getD cid none = none) →
    (∀ cid ∈ l, st.store.table cid = T0.getD cid []) →
    (∀ cid ∈ l, ∀ vs, values.getD cid none = some vs →
       ∀ c, comps.getD cid none = some c →
       Table.readId (T0.getD cid []) c.1 = some c
       ∧ c.2.keys.Nodup ∧ Obj.keysSub vs c.2
       ∧ ((T0.getD cid []).map Prod.fst).Nodup) →
    (match updateLoop fail values comps l upd st with
     | .error (u1, st1) => rollbackUpdateTables u1 comps 0 st1.store.tables = T0
     | .ok (u1, st1) =>
         rollbackUpdateTables u1 comps 0 st1.store.tables = T0
         ∧ (∀ cid, (cid ∉ l ∨ values.getD cid none = none) →
              st1.store.table cid = st.store.table cid
              ∧ u1.getD cid none = upd.getD cid none))
  | [], upd, st, _, hroll, _, _, _ => ⟨hroll, fun cid _ => ⟨rfl, rfl⟩⟩
  | cid :: rest, upd, st, hnodup, hroll, hupd, huntouched, hcompat => by
    simp only [List.nodup_cons] at hnodup
    rw [updateLoop]
    cases hv : values.getD cid none with
    | none =>
      dsimp only
      have IH := updateLoop_spec fail values comps T0 rest upd st hnodup.2 hroll
        (fun c hc => hupd c (List.mem_cons_of_mem _ hc))
        (fun c hc => huntouched c (List.mem_cons_of_mem _ hc))
        (fun c hc => hcompat c (List.mem_cons_of_mem _ hc))
      cases hrec : updateLoop fail values comps rest upd st with
      | error e =>
        rw [hrec] at IH
        exact IH
      | ok res =>
        rw [hrec] at IH
        obtain ⟨ihroll, ihframe⟩ := IH
        refine ⟨ihroll, fun cid' h' => ?_⟩
        refine ihframe cid' ?_
        rcases h' with hnot | hvn
        · exact Or.inl (fun hmem => hnot (List.mem_cons_of_mem _ hmem))
        · exact Or.inr hvn
    | some vs =>
      dsimp only
      cases hcomp : comps.getD cid none with
      | none =>
        dsimp only
        exact hroll
      | some c =>
        dsimp only
        obtain ⟨hreadc, hnodupc, hsubc, hnodupIds⟩ :=
          hcompat cid (List.mem_cons_self _ _) vs hv c hcomp
        have hcur : st.store.table cid = T0.getD cid [] :=
          huntouched cid (List.mem_cons_self _ _)
        cases hop : updateOrThrowOp fail st cid c.1 (c.2.merge vs) with
        | error st1 =>
          dsimp only
          have hst1 : st1.store = st.store :=
            updateOrThrowOp_error_store fail st cid c.1 _ st1 hop
          rw [hst1]
          exact hroll
        | ok res =>
          obtain ⟨r, st1⟩ := res
          dsimp only
          obtain ⟨c0, hreadcur, hr, htab1, hnext1, hlen1⟩ :=
            updateOrThrowOp_ok fail st cid c.1 _ r st1 hop
          have hrestore : Table.updateRec
              (Table.updateRec (st.store.table cid) c.1 (c.2.merge vs)) c.1 c.2
              = st.store.table cid := by
            rw [hcur]
            exact Table.updateRec_restore (T0.getD cid []) c.1 c.2 (c.2.merge vs)
              hnodupIds hreadc hnodupc (Obj.keysSub_merge c.2 vs hsubc)
          have hrollset := rollbackUpdateTables_set r comps st.store.tables upd 0 cid
            (Table.updateRec (st.store.table cid) c.1 (c.2.merge vs))
            hlen1 (by simpa using hupd cid (List.mem_cons_self _ _))
            (by simpa only [Nat.zero_add, hcomp] using hrestore)
          simp only [Nat.zero_add] at hrollset
          have hroll1 : rollbackUpdateTables (setIdx upd cid r) comps 0
              st1.store.tables = T0 := by
            rw [htab1, hrollset, hroll]
          have htable1 : ∀ cid', cid' ≠ cid →
              st1.store.table cid' = st.store.table cid' := by
            intro cid' hne
            show st1.store.tables.getD cid' [] = st.store.tables.getD cid' []
            rw [htab1]
            exact getD_set_ne _ cid cid' _ [] (fun hcontr => hne hcontr.symm)
          have IH := updateLoop_spec fail values comps T0 rest (setIdx upd cid r) st1
            hnodup.2 hroll1
            (fun c' hc' => by
              rw [setIdx_getD_ne upd c' cid r
                (fun hcontr => hnodup.1 (hcontr ▸ hc'))]
              exact hupd c' (List.mem_cons_of_mem _ hc'))
            (fun c' hc' => by
              rw [htable1 c' (fun hcontr => hnodup.1 (hcontr ▸ hc'))]
              exact huntouched c' (List.mem_cons_of_mem _ hc'))
            (fun c' hc' => hcompat c' (List.mem_cons_of_mem _ hc'))
          split
          · -- the loop threw, either deeper in or at this verify check
            rename_i u1 st2 heq
            split at heq
            · rw [heq] at IH
              exact IH
            · injection heq with hpair
              have h1 := congrArg Prod.fst hpair
              have h2 := congrArg Prod.snd hpair
              dsimp only at h1 h2
              rw [← h1, ← h2]
              exact hroll1
          · -- the loop finished
            rename_i u1 st2 heq
            split at heq
            · rw [heq] at IH
              obtain ⟨ihroll, ihframe⟩ := IH
              refine ⟨ihroll, fun cid' h' => ?_⟩
              have hne : cid' ≠ cid := by
                intro hcontr
                subst hcontr
                rcases h' with hnot | hvn
                · exact hnot (List.mem_cons_self _ _)
                · rw [hvn] at hv
                  exact absurd hv (by simp)
              have hframe' := ihframe cid' (by
                rcases h' with hnot | hvn
                · exact Or.inl (fun hmem => hnot (List.mem_cons_of_mem _ hmem))
                · exact Or.inr hvn)
              refine ⟨hframe'.1.trans (htable1 cid' hne), hframe'.2.trans ?_⟩
              exact setIdx_getD_ne upd cid' cid r (Ne.symm hne)
            · exact absurd heq (by simp)

end Transaction

/-!
## Validator (src/db/Validator.ts and src/db2/Validator.ts)

The Joi schemas are embedded structurally: which keys are known, which
are required, and a per-field format check.  Joi's internal email and
ISO-date recognizers are external collaborators; they are modelled by
simplified total checks (marked below), which the claims do not depend
on.  `src/db/Validator.ts` always validates with the required schema
(its `useValidator` closure ignores the update flag); `src/db2` makes
the required fields optional when `update` is true — the `update`
parameter below reflects the db2 variant, and `update := false` is the
db variant.
-/

namespace Validator

/-- The `Users` rule keys. -/
def usersKeys : List String := ["email", "password"]

/-- The `Profiles` rule keys. -/
def profilesKeys : List String :=
  ["username", "first_name", "last_name", "gender", "birthday", "categories"]

/-- All keys the UserProfile schema knows. -/
def userProfileKeys : List String := usersKeys ++ profilesKeys

/-- The `NotAllowed` pattern: none of the characters `;`, `,`, single
quote, double quote, backtick, `*`, `=`, `/` occur. -/
def notAllowedOk (s : String) : Bool :=
  s.toList.all (fun ch =>
    !([';', ',', Char.ofNat 39, Char.ofNat 34, Char.ofNat 96, '*', '=', '/'].contains ch))

/-- Per-field format check of the UserProfile schema.  The email and
ISO-date formats are simplified stand-ins for Joi's recognizers. -/
def fieldOk (k : String) (v : Val) : Bool :=
  match k, v with
  | "email", .sv (.str s) => s.toList.contains '@' && notAllowedOk s
  | "password", .sv (.str s) =>
      notAllowedOk s && decide (5 ≤ s.length) && decide (s.length ≤ 30)
  | "username", .sv (.str s) => notAllowedOk s && decide (s.length ≤ 30)
  | "first_name", .sv (.str s) => notAllowedOk s && decide (s.length ≤ 30)
  | "last_name", .sv (.str s) => notAllowedOk s && decide (s.length ≤ 30)
  | "gender", .sv (.str s) => s.toList.all Char.isAlphanum && decide (s.length ≤ 16)
  | "birthday", .sv (.str s) => decide (s.length ≤ 30)
  | "categories", .arr es =>
      decide es.Nodup && es.all (fun e =>
        match e with
        | .str _ => true
        | _ => false)
  | _, _ => false

/-- UserProfile schema validation with `abortEarly: false`: collect the
unknown-key, missing-required and per-field failures; succeed with the
value unchanged when there are none.  With `update := true` (db2) the
required fields become optional. -/
def validateUserProfile (update : Bool) (data : Obj) :
    Except (List (String × String)) Obj :=
  let requiredKeys := if update then [] else usersKeys
  let errs :=
    (data.filter (fun p => !(userProfileKeys.contains p.1))).map
      (fun p => (p.1, "\x22" ++ p.1 ++ "\x22 is not allowed"))
    ++ (requiredKeys.filter (fun k => !(data.any (fun p => p.1 == k)))).map
      (fun k => (k, "\x22" ++ k ++ "\x22 is required"))
    ++ (data.filter (fun p =>
          userProfileKeys.contains p.1 && !(fieldOk p.1 p.2))).map
      (fun p => (p.1, "\x22" ++ p.1 ++ "\x22 is invalid"))
  if errs.isEmpty then .ok data else .error errs

/-- `Validator.segregate`: one per-table subset per rule, each holding
the pairs of the validated value whose key belongs to that rule's key
set.  The JS loop initialises the per-rule objects only while iterating
the value's keys, so an empty validated value yields an empty array
rather than a list of empty objects. -/
def segregate (value : Obj) (rules : List (List String)) : List Obj :=
  match value with
  | [] => []
  | _ => rules.map (fun ks => value.filter (fun p => ks.contains p.1))

/-- The segregation rules `useValidator` picks for `userProfile`:
`["Profiles", "Users"]`, in collection order. -/
def userProfileRules : List (List String) := [profilesKeys, usersKeys]

/-- `Validator.handleError`: key every error detail by its context key
(later details overwrite earlier ones with the same key). -/
def handleError (errs : List (String × String)) : Obj :=
  errs.foldl (fun acc p => Obj.set acc p.1 (Val.str p.2)) []

end Validator

/-!
## APIHandler request handling (src/db/APIHandler.ts)

Each public method catches every error internally and RETURNS a value:
the serialized object on success, `Validator.handleError`'s
`\x7b error: ... \x7d` object for validation failures, and the raw error
message string for everything else.  `useNext` therefore always receives
a plain value from the method and wraps it in a 200 response; its 400
branch for `Validator.Error` is unreachable.
-/

/-- A JSON response body: a serialized object, a bare string message, or
the validation-error wrapper object whose single `error` key holds the
field-keyed messages. -/
inductive Body : Type where
  | json (o : Obj)
  | jsonStr (s : String)
  | errorJson (fields : Obj)
deriving DecidableEq, Repr

/-- An HTTP response: status code and JSON body. -/
structure Response : Type where
  status : Nat
  body : Body
deriving DecidableEq, Repr

/-- What an APIHandler method returns (it never throws). -/
inductive ApiResult : Type where
  | ok (o : Obj)
  | errBody (fields : Obj)
  | errMsg (m : String)
deriving DecidableEq, Repr

/-- Stand-in for the message of a thrown xata operation error. -/
def dbErrorMessage : String := "Database operation failed."

/-- Stand-in for the message of a `readOrThrow` not-found error. -/
def notFoundMessage : String := "Record could not be found."

namespace APIHandler

/-- `SensitiveFields.toRemove`. -/
def sensitiveToRemove : List String := ["password", "user", "xata"]

/-- `sensitive.remove`: delete the sensitive fields, then delete every
key with a falsy value. -/
def sensitiveRemove (o : Obj) : Obj :=
  (o.filter (fun p => !(sensitiveToRemove.contains p.1))).filter (fun p => truthy p.2)

/-- `sensitive.hash`: replace a truthy `password` string by its bcrypt
hash (the hash itself is an oracle). -/
def sensitiveHash (hash : String → String) (o : Obj) : Obj :=
  match o.get? "password" with
  | some (.sv (.str s)) =>
      if s ≠ "" then Obj.set o "password" (Val.str (hash s)) else o
  | _ => o

/-- `record.toSerializable()`: the record's id and xata metadata along
with its columns. -/
def serializeRec (r : Rec) : Obj :=
  ("id", Val.num (Int.ofNat r.1)) :: ("xata", Val.str "meta") :: r.2

/-- The serialize-and-combine step
(`serializedComponents.reduce((prev, curr) => (\x7b...curr, ...prev\x7d))`);
JS `map`/`reduce` skip array holes, hence the `filterMap`. -/
def combine (objs : List Obj) : Obj :=
  match objs with
  | [] => []
  | h :: t => t.foldl (fun prev curr => Obj.merge curr prev) h

/-- Serialize the components of an object, skipping holes. -/
def serializeComps (comps : Comps) : List Obj :=
  (comps.filterMap id).map serializeRec

/-- `handleCollections.get`: like `Transaction.get` but with no internal
catch — the throw travels to the calling method's catch block. -/
def getComps (s : Store) (cfg : Config) (id : Nat) : Except Unit Comps :=
  match Table.readId (s.table cfg.fromId) id with
  | none => .error ()
  | some m =>
    match resolveSecondaries s m (cfg.load.zip cfg.keys) (setIdx [] cfg.fromId m) with
    | some comps => .ok comps
    | none => .error ()

/-- `APIHandler.create` for the UserProfile options: validate, hash,
create across the collections (no rollback), serialize, strip. -/
def create (fail : Nat → Bool) (hash : String → String) (cfg : Config)
    (data : Obj) (st : St) : ApiResult × St :=
  match Validator.validateUserProfile false data with
  | .error e => (.errBody (Validator.handleError e), st)
  | .ok value =>
    let values := (Validator.segregate value Validator.userProfileRules).map
      (sensitiveHash hash)
    match handleCollectionsCreate fail values cfg st with
    | .error st1 => (.errMsg dbErrorMessage, st1)
    | .ok (comps, st1) =>
      (.ok (sensitiveRemove (combine (serializeComps comps))), st1)

/-- `APIHandler.get`: the not-found throw of `readOrThrow` is caught and
turned into the returned message string. -/
def get (s : Store) (cfg : Config) (id : Nat) : ApiResult :=
  match getComps s cfg id with
  | .error _ => .errMsg notFoundMessage
  | .ok comps => .ok (sensitiveRemove (combine (serializeComps comps)))

/-- The key-matching pass of `APIHandler.update`: for every key of the
request data, write its value into the first serialized component that
has that key, recording the component's index. -/
def matchKeys (data : Obj) (ser : List Obj) : List Obj × List Nat :=
  data.foldl (fun acc p =>
    match acc.1.findIdx? (fun o => o.any (fun q => q.1 == p.1)) with
    | some cid => (acc.1.set cid ((acc.1.getD cid []).set p.1 p.2), acc.2 ++ [cid])
    | none => acc) (ser, [])

/-- The update pass of `APIHandler.update`: `updateOrThrow` each tracked
component in order; a throw propagates at once, with no write-back of
the components already updated. -/
def runUpdates (fail : Nat → Bool) (recs : List Rec) (ser : List Obj) :
    List Nat → St → Except St St
  | [], st => .ok st
  | cid :: rest, st =>
    match updateOrThrowOp fail st cid (recs.getD cid (0, [])).1 (ser.getD cid []) with
    | .error st1 => .error st1
    | .ok (_, st1) => runUpdates fail recs ser rest st1

/-- `APIHandler.update` for the UserProfile options: validate (the
underlying validator applies the required schema regardless of the
update flag), hash the validated values (which are then never used — the
method updates from the raw request data), read the object, write the
request data into the matching serialized components, persist each
touched component, and combine.  No compensation on failure. -/
def update (fail : Nat → Bool) (hash : String → String) (cfg : Config)
    (id : Nat) (data : Obj) (st : St) : ApiResult × St :=
  match Validator.validateUserProfile false data with
  | .error e => (.errBody (Validator.handleError e), st)
  | .ok value =>
    let _hashed := (Validator.segregate value Validator.userProfileRules).map
      (sensitiveHash hash)
    match getComps st.store cfg id with
    | .error _ => (.errMsg notFoundMessage, st)
    | .ok comps =>
      let recs := comps.filterMap (fun c => c)
      let mk := matchKeys data (recs.map serializeRec)
      match runUpdates fail recs mk.1 mk.2 st with
      | .error st1 => (.errMsg dbErrorMessage, st1)
      | .ok st1 => (.ok (sensitiveRemove (combine mk.1)), st1)

/-- The deletion loop of `APIHandler.delete`: `deleteOrThrow` component
by component in collection order; a throw propagates at once. -/
def runDeletes (fail : Nat → Bool) (comps : Comps) :
    List Nat → St → Except St St
  | [], st => .ok st
  | cid :: rest, st =>
    match deleteOrThrowOp fail st cid ((comps.getD cid none).getD (0, [])).1 with
    | .error st1 => .error st1
    | .ok (_, st1) => runDeletes fail comps rest st1

/-- `APIHandler.delete`: read the components, delete them one by one,
serialize and return the read components. -/
def delete (fail : Nat → Bool) (cfg : Config) (id : Nat) (st : St) :
    ApiResult × St :=
  match getComps st.store cfg id with
  | .error _ => (.errMsg notFoundMessage, st)
  | .ok comps =>
    match runDeletes fail comps (List.range st.store.tables.length) st with
    | .error st1 => (.errMsg dbErrorMessage, st1)
    | .ok st1 => (.ok (sensitiveRemove (combine (serializeComps comps))), st1)

/-- `useNext`: the wrapped method has already caught every error and
returned a plain value, so the response is always a 200 whose body is
that value; the `Validator.Error` → 400 branch of `useNext` can never
fire. -/
def useNext (result : ApiResult) : Response :=
  match result with
  | .ok o => { status := 200, body := .json o }
  | .errBody fields => { status := 200, body := .errorJson fields }
  | .errMsg m => { status := 200, body := .jsonStr m }

end APIHandler

/-- C7: the claim as stated is false on the code.  On the
`APIHandler.update` path, the request updates the Users component and
then a second update step throws; the error is returned with the Users
table keeping its new values — no component is written back. -/
theorem C7_counterexample :
    APIHandler.update (fun c => c == 1) (fun s => "#" ++ s) userProfileConfig 0
        [("email", Val.str "c@d"), ("password", Val.str "54321"),
         ("username", Val.str "w")]
        ⟨⟨[[(0, [("user", Val.ref 1), ("username", Val.str "u")])],
           [(1, [("email", Val.str "a@b"), ("password", Val.str "12345")])]], 5⟩, 0⟩
      = (.errMsg dbErrorMessage,
         ⟨⟨[[(0, [("user", Val.ref 1), ("username", Val.str "u")])],
            [(1, [("email", Val.str "c@d"), ("password", Val.str "54321"),
                  ("id", Val.num 1), ("xata", Val.str "meta")])]], 5⟩, 2⟩)
    ∧ ([(1, [("email", Val.str "c@d"), ("password", Val.str "54321"),
             ("id", Val.num 1), ("xata", Val.str "meta")])] : Table)
        ≠ [(1, [("email", Val.str "a@b"), ("password", Val.str "12345")])] :=
  ⟨by decide, by decide⟩

/-- C7 (amended, Transaction path): `Transaction.update` writes only the
collections for which the input supplies values — the other tables keep
their contents and their components are returned as read — and when a
step throws, every component updated during the call is written back to
its pre-update value before the error is re-raised, restoring the
tables. -/
theorem C7_transaction_update (fail : Nat → Bool) (id : Nat)
    (values : List (Option Obj)) (cfg : Config) (st : St)
    (hids : st.store.wfIds = true) (hrecs : st.store.wfRecs = true)
    (hcompat : Store.patchCompat st.store values = true) :
    (match Transaction.update fail id values cfg st with
     | .error st1 => st1.store.tables = st.store.tables
     | .ok (res, st1) =>
         ((List.range st.store.tables.length).all (fun cid =>
            match values.getD cid none with
            | none => (st1.store.table cid == st.store.table cid)
                && (res.getD cid none == (Transaction.get st.store cfg id).getD cid none)
            | some _ => true)) = true) := by
  have htabmem : ∀ cid, cid < st.store.tables.length →
      st.store.table cid ∈ st.store.tables := by
    intro cid hcid
    simp only [Store.table, List.getD_eq_getElem?_getD, List.getElem?_eq_getElem hcid,
      Option.getD_some]
    exact st.store.tables.getElem_mem hcid
  have SPEC := Transaction.updateLoop_spec fail values
    (Transaction.get st.store cfg id) st.store.tables
    (List.range st.store.tables.length) [] st (List.nodup_range _)
    (Transaction.rollbackUpdateTables_none [] _ st.store.tables 0 (fun i _ => rfl))
    (fun c _ => rfl) (fun c _ => rfl)
    (by
      intro cid hcid vs hv c hcomp
      have hcid' : cid < st.store.tables.length := List.mem_range.mp hcid
      have hread := Transaction.get_entries st.store cfg id cid c hcomp
      obtain ⟨-, hmem⟩ := Table.readId_some _ c.1 c hread
      refine ⟨hread, ?_, ?_, ?_⟩
      · have h1 := List.all_eq_true.mp hrecs _ (htabmem cid hcid')
        have h2 := List.all_eq_true.mp h1 c hmem
        exact of_decide_eq_true h2
      · have h1 := List.all_eq_true.mp hcompat cid (by simpa using hcid')
        rw [hv] at h1
        exact List.all_eq_true.mp h1 c hmem
      · have h1 := List.all_eq_true.mp hids _ (htabmem cid hcid')
        exact of_decide_eq_true h1)
  rw [Transaction.update]
  split
  · -- the loop threw: the compensation restored the tables
    rename_i st1 heq
    split at heq
    · rename_i upd st2 hloop
      exact absurd heq (by simp)
    · rename_i upd st2 hloop
      rw [hloop] at SPEC
      injection heq with hst
      rw [← hst]
      exact SPEC
  · -- the loop finished: frame conditions
    rename_i u1 st1 heq
    split at heq
    · rename_i upd st2 hloop
      rw [hloop] at SPEC
      injection heq with hpair
      have hu : Transaction.overrideComps upd 0 (Transaction.get st.store cfg id) = u1 :=
        congrArg Prod.fst hpair
      have hst : st2 = st1 := congrArg Prod.snd hpair
      obtain ⟨-, sframe⟩ := SPEC
      refine List.all_eq_true.mpr (fun cid hcid => ?_)
      cases hv : values.getD cid none with
      | none =>
        obtain ⟨htable, hupd⟩ := sframe cid (Or.inr hv)
        have hres : (Transaction.overrideComps upd 0 (Transaction.get st.store cfg id)).getD
            cid none = (Transaction.get st.store cfg id).getD cid none :=
          Transaction.overrideComps_getD upd _ 0 cid (by simpa using hupd)
        rw [← hu, ← hst]
        simp only [List.getD_eq_getElem?_getD] at hres
        simp [htable, hres]
      | some vs => simp [hv]
    · rename_i upd st2 hloop
      exact absurd heq (by simp)

/-- Witness for C7: a concrete update that only supplies values for the
Users collection, and a concrete failing one whose tables are
restored. -/
theorem C7_transaction_update_witness :
    ((Store.mk [[(0, [("user", Val.ref 1), ("username", Val.str "u")])],
        [(1, [("email", Val.str "a@b"), ("password", Val.str "12345")])]] 5).wfIds = true
     ∧ (Store.mk [[(0, [("user", Val.ref 1), ("username", Val.str "u")])],
        [(1, [("email", Val.str "a@b"), ("password", Val.str "12345")])]] 5).wfRecs = true
     ∧ Store.patchCompat
        (Store.mk [[(0, [("user", Val.ref 1), ("username", Val.str "u")])],
          [(1, [("email", Val.str "a@b"), ("password", Val.str "12345")])]] 5)
        [none, some [("email", Val.str "x@y")]] = true)
    ∧ (match Transaction.update (fun _ => false) 0
          [none, some [("email", Val.str "x@y")]] userProfileConfig
          ⟨⟨[[(0, [("user", Val.ref 1), ("username", Val.str "u")])],
             [(1, [("email", Val.str "a@b"), ("password", Val.str "12345")])]], 5⟩, 0⟩ with
       | .error st1 => st1.store.tables
           = [[(0, [("user", Val.ref 1), ("username", Val.str "u")])],
              [(1, [("email", Val.str "a@b"), ("password", Val.str "12345")])]]
       | .ok (res, st1) =>
           (([0, 1] : List Nat).all (fun cid =>
              match ([none, some [("email", Val.str "x@y")]] :
                  List (Option Obj)).getD cid none with
              | none => (st1.store.table cid
                    == (⟨[[(0, [("user", Val.ref 1), ("username", Val.str "u")])],
                          [(1, [("email", Val.str "a@b"),
                                ("password", Val.str "12345")])]], 5⟩ : Store).table cid)
                  && (res.getD cid none
                    == (Transaction.get
                        ⟨[[(0, [("user", Val.ref 1), ("username", Val.str "u")])],
                          [(1, [("email", Val.str "a@b"),
                                ("password", Val.str "12345")])]], 5⟩
                        userProfileConfig 0).getD cid none)
              | some _ => true)) = true)
    ∧ (match Transaction.update (fun c => c == 0) 0
          [none, some [("email", Val.str "x@y")]] userProfileConfig
          ⟨⟨[[(0, [("user", Val.ref 1), ("username", Val.str "u")])],
             [(1, [("email", Val.str "a@b"), ("password", Val.str "12345")])]], 5⟩, 0⟩ with
       | .error st1 => st1.store.tables
           = [[(0, [("user", Val.ref 1), ("username", Val.str "u")])],
              [(1, [("email", Val.str "a@b"), ("password", Val.str "12345")])]]
       | .ok _ => False) :=
  ⟨⟨by decide, by decide, by decide⟩,
   C7_transaction_update (fun _ => false) 0 [none, some [("email", Val.str "x@y")]]
     userProfileConfig
     ⟨⟨[[(0, [("user", Val.ref 1), ("username", Val.str "u")])],
        [(1, [("email", Val.str "a@b"), ("password", Val.str "12345")])]], 5⟩, 0⟩
     (by decide) (by decide) (by decide),
   C7_transaction_update (fun c => c == 0) 0 [none, some [("email", Val.str "x@y")]]
     userProfileConfig
     ⟨⟨[[(0, [("user", Val.ref 1), ("username", Val.str "u")])],
        [(1, [("email", Val.str "a@b"), ("password", Val.str "12345")])]], 5⟩, 0⟩
     (by decide) (by decide) (by decide)⟩

/-!
## C3 and C4: response statuses (src/db/APIHandler.ts useNext)

Every public APIHandler method catches its errors and returns a plain
value, so `useNext`'s `NextResponse.json(json)` wraps every outcome —
success, validation failure and not-found alike — in a status-200
response.  The `Validator.Error` → 400 branch and any 404 are
unreachable on this path.
-/

/-- C3: the code does not do what the claim (and the spec's error-status
design) says.  The empty JSON payload fails the UserProfile schema, yet
the response of the create endpoint has status 200 — not 400 — and the
field-keyed messages are nested under the single `error` key of the
body rather than forming the body. -/
theorem C3_code_bug :
    (Validator.validateUserProfile false []).isOk = false
    ∧ APIHandler.useNext
        (APIHandler.create (fun _ => false) (fun s => s) userProfileConfig []
          ⟨⟨[[], []], 0⟩, 0⟩).1
      = { status := 200,
          body := Body.errorJson
            [("email", Val.str "\x22email\x22 is required"),
             ("password", Val.str "\x22password\x22 is required")] }
    ∧ (200 : Nat) ≠ 400 :=
  ⟨by decide, by decide, by decide⟩

/-- C4: false on the code — a GET of an id absent from the primary
table produces a 200 response whose body is the not-found message
string, not a 404 response. -/
theorem C4_counterexample :
    APIHandler.useNext (APIHandler.get ⟨[[], []], 0⟩ userProfileConfig 7)
      = { status := 200, body := Body.jsonStr notFoundMessage }
    ∧ (200 : Nat) ≠ 404 :=
  ⟨by decide, by decide⟩

/-- C4 (amended): when no record with the requested id exists in the
primary table, the GET, PUT and DELETE handlers all answer with status
200 and the not-found message string as the body (the update handler
reaches its read only when the payload passes validation). -/
theorem C4_missing_id_responses (fail : Nat → Bool) (hash : String → String)
    (cfg : Config) (id : Nat) (data : Obj) (st : St)
    (hmiss : Table.readId (st.store.table cfg.fromId) id = none)
    (hval : Validator.validateUserProfile false data = .ok data) :
    APIHandler.useNext (APIHandler.get st.store cfg id)
      = { status := 200, body := Body.jsonStr notFoundMessage }
    ∧ APIHandler.useNext (APIHandler.update fail hash cfg id data st).1
      = { status := 200, body := Body.jsonStr notFoundMessage }
    ∧ APIHandler.useNext (APIHandler.delete fail cfg id st).1
      = { status := 200, body := Body.jsonStr notFoundMessage } := by
  have hg : APIHandler.getComps st.store cfg id = .error () := by
    rw [APIHandler.getComps, hmiss]
  refine ⟨?_, ?_, ?_⟩
  · rw [APIHandler.get, hg]
    rfl
  · rw [APIHandler.update, hval]
    dsimp only
    rw [hg]
    rfl
  · rw [APIHandler.delete, hg]
    rfl

/-- Witness for C4: the GET, PUT and DELETE of id 7 on an empty
two-table store, with a payload the schema accepts. -/
theorem C4_missing_id_responses_witness :
    Table.readId
        ((⟨⟨[[], []], 3⟩, 0⟩ : St).store.table userProfileConfig.fromId) 7 = none
    ∧ Validator.validateUserProfile false
        [("email", Val.str "a@b"), ("password", Val.str "12345")]
      = .ok [("email", Val.str "a@b"), ("password", Val.str "12345")]
    ∧ (APIHandler.useNext
        (APIHandler.get (⟨⟨[[], []], 3⟩, 0⟩ : St).store userProfileConfig 7)
      = { status := 200, body := Body.jsonStr notFoundMessage }
    ∧ APIHandler.useNext
        (APIHandler.update (fun _ => false) (fun s => s) userProfileConfig 7
          [("email", Val.str "a@b"), ("password", Val.str "12345")]
          ⟨⟨[[], []], 3⟩, 0⟩).1
      = { status := 200, body := Body.jsonStr notFoundMessage }
    ∧ APIHandler.useNext
        (APIHandler.delete (fun _ => false) userProfileConfig 7
          ⟨⟨[[], []], 3⟩, 0⟩).1
      = { status := 200, body := Body.jsonStr notFoundMessage }) :=
  ⟨by decide, by rfl,
   C4_missing_id_responses (fun _ => false) (fun s => s) userProfileConfig 7
     [("email", Val.str "a@b"), ("password", Val.str "12345")]
     ⟨⟨[[], []], 3⟩, 0⟩ (by decide) (by rfl)⟩

/-!
## C6: segregation (src/db/Validator.ts 110-124, src/db2/Validator.ts 121-135)

Both segregate implementations initialise the per-rule objects only
inside the loop over the validated value's keys, so an empty accepted
value (possible under the db2 update-mode schema, which has no required
keys) produces an empty array instead of one subset per rule.
-/

/-- C6: false as stated — the db2 update-mode schema accepts the empty
payload, and segregating it yields no subsets at all instead of one
(empty) subset per configured rule. -/
theorem C6_counterexample :
    Validator.validateUserProfile true [] = .ok []
    ∧ Validator.segregate [] Validator.userProfileRules = []
    ∧ Validator.userProfileRules.length = 2
    ∧ (Validator.segregate [] Validator.userProfileRules).length ≠
        Validator.userProfileRules.length :=
  ⟨by rfl, by rfl, by rfl, by decide⟩

/-- C6 (amended): for a non-empty validated value, segregation produces
one subset per rule in rule order, and subset `i` is exactly the list
of the value's pairs whose key belongs to rule `i`'s key set — so a key
in no rule appears in no subset and a key in several rules appears in
each matching subset with its value. -/
theorem C6_segregate (value : Obj) (rules : List (List String))
    (hne : value ≠ []) (i : Nat) (hi : i < rules.length) :
    (Validator.segregate value rules).length = rules.length
    ∧ (Validator.segregate value rules).getD i []
      = value.filter (fun p => (rules.getD i []).contains p.1) := by
  cases value with
  | nil => exact absurd rfl hne
  | cons q qs =>
    rw [Validator.segregate]
    refine ⟨List.length_map _ _, ?_⟩
    simp only [List.getD_eq_getElem?_getD, List.getElem?_map,
      List.getElem?_eq_getElem hi]
    rfl
    exact fun h => List.noConfusion h

/-- Witness for C6: a two-key value split against the UserProfile
rules; the email lands in the Users subset, the username in the
Profiles subset. -/
theorem C6_segregate_witness :
    ([("email", Val.str "x"), ("username", Val.str "u")] : Obj) ≠ []
    ∧ (0 : Nat) < Validator.userProfileRules.length
    ∧ (Validator.segregate [("email", Val.str "x"), ("username", Val.str "u")]
        Validator.userProfileRules).length = Validator.userProfileRules.length
    ∧ (Validator.segregate [("email", Val.str "x"), ("username", Val.str "u")]
        Validator.userProfileRules).getD 0 []
      = [("username", Val.str "u")] :=
  ⟨by decide, by decide,
   (C6_segregate [("email", Val.str "x"), ("username", Val.str "u")]
      Validator.userProfileRules (by decide) 0 (by decide)).1,
   ((C6_segregate [("email", Val.str "x"), ("username", Val.str "u")]
      Validator.userProfileRules (by decide) 0 (by decide)).2).trans (by decide)⟩

/-!
## QueryString (src/unnamed/part_011)

`define` parses a URL's search parameters against a typed template and
`getURL` serializes a query object back to search parameters.  The
`URL`/`URLSearchParams` layer (the percent-encoding between the
parameter list and the URL string) is platform code outside the
repository and is modelled as the identity on the ordered key-value
pair list.  Query numbers are modelled as integers; `String(n)` and
`Number(s)` become the decimal printer and parser below.
-/

/-- A string is its list of characters. -/
theorem mkToList (s : String) : String.mk s.toList = s := by
  cases s
  rfl

/-- Concatenation acts on the character lists. -/
theorem toList_append (a b : String) :
    (a ++ b).toList = a.toList ++ b.toList := by
  cases a
  cases b
  rfl

/-- JS object assignment `o[k] = v`: overwrite the key in place when
present, append otherwise. -/
def assocSet (l : List (String × β)) (k : String) (v : β) :
    List (String × β) :=
  if l.any (fun p => p.1 == k) then
    l.map (fun p => if p.1 == k then (k, v) else p)
  else l ++ [(k, v)]

theorem assocSet_not_mem (l : List (String × β)) (k : String) (v : β)
    (h : l.any (fun p => p.1 == k) = false) :
    assocSet l k v = l ++ [(k, v)] := by
  rw [assocSet, if_neg (by simp [h])]

namespace QueryString

/-- The value kinds of the query templates: `0`, `""`, `[""]`. -/
inductive TKind : Type where
  | num
  | str
  | arrStr
deriving DecidableEq, Repr

/-- A typed query value as `define` produces it: a number, a string, an
array of strings, or JS `undefined` (a failed conversion). -/
inductive QVal : Type where
  | num (n : Int)
  | str (s : String)
  | arr (es : List String)
  | undefined
deriving DecidableEq, Repr

/-- The `UserProfile` search-parameter template. -/
def userProfileTemplate : List (String × TKind) :=
  [("page", .num), ("size", .num), ("search", .str),
   ("search_precise", .str), ("categories", .arrStr),
   ("conversations", .arrStr)]

/-- The little-endian decimal digits of `n`, computed with a structural
fuel (`fuel ≥ n` suffices) so the kernel can evaluate it. -/
def natDigitsRev : Nat → Nat → List Nat
  | 0, _ => []
  | _ + 1, 0 => []
  | fuel + 1, n + 1 => (n + 1) % 10 :: natDigitsRev fuel ((n + 1) / 10)

/-- JS `String(n)` for a natural number. -/
def natToStr (n : Nat) : String :=
  if n = 0 then "0"
  else String.mk (((natDigitsRev n n).map (fun d => Char.ofNat (48 + d))).reverse)

/-- JS `String(n)` for an integer. -/
def intToStr (n : Int) : String :=
  if n < 0 then "-" ++ natToStr n.natAbs else natToStr n.natAbs

/-- The numeric value of a decimal digit character. -/
def digitVal (c : Char) : Option Nat :=
  if 48 ≤ c.toNat ∧ c.toNat ≤ 57 then some (c.toNat - 48) else none

/-- Parse a non-empty all-digit character run, most significant digit
first. -/
def parseNatChars (cs : List Char) : Option Nat :=
  if cs = [] then none
  else if cs.all (fun c => (digitVal c).isSome) then
    some (Nat.ofDigits 10 ((cs.map (fun c => (digitVal c).getD 0)).reverse))
  else none

/-- JS `Number(s)` restricted to optionally signed decimal integers
(`none` is `NaN`; the empty string is JS's `Number("") = 0`). -/
def parseNum (s : String) : Option Int :=
  match s.toList with
  | [] => some 0
  | c :: cs =>
    if c = '-' then (parseNatChars cs).map (fun m => -(m : Int))
    else (parseNatChars (c :: cs)).map (fun m => (m : Int))

/-- JS `value.split(sep)` for a one-character separator, over the
character list. -/
def splitCharAux (sep : Char) : List Char → List Char → List String
  | [], cur => [String.mk cur.reverse]
  | c :: rest, cur =>
    if c = sep then String.mk cur.reverse :: splitCharAux sep rest []
    else splitCharAux sep rest (c :: cur)

/-- JS `s.split(sep)`. -/
def splitChar (sep : Char) (s : String) : List String :=
  splitCharAux sep s.toList []

/-- `array.reduce((p, c) => p + "," + c)`; JS throws on the empty
array. -/
def joinComma : List String → Option String
  | [] => none
  | e :: t => some (t.foldl (fun acc x => acc ++ "," ++ x) e)

/-- `QueryString.handleValue`: convert a raw parameter string to the
template key's type (the templates here have no boolean keys). -/
def handleValue (value : String) : TKind → QVal
  | .num =>
    match parseNum value with
    | some n => .num n
    | none => .undefined
  | _ => .str value

/-- `QueryString.handleArray`: only a comma-containing value parses to
an array; the template element type is the (falsy) empty string, so
`handleValue` keeps the pieces as strings. -/
def handleArray (value : String) : QVal :=
  if value.toList.contains ',' then .arr (splitChar ',' value) else .undefined

/-- Template lookup. -/
def tfind (tmpl : List (String × TKind)) (k : String) : Option TKind :=
  (tmpl.find? (fun p => p.1 == k)).map (fun p => p.2)

/-- One `params.forEach` step of `QueryString.define`. -/
def defineStep (tmpl : List (String × TKind)) (q : List (String × QVal))
    (p : String × String) : List (String × QVal) :=
  match tfind tmpl p.1 with
  | none => q
  | some .arrStr => assocSet q p.1 (handleArray p.2)
  | some k => assocSet q p.1 (handleValue p.2 k)

/-- `QueryString.define` over the decoded parameter list. -/
def define (params : List (String × String))
    (tmpl : List (String × TKind)) : List (String × QVal) :=
  params.foldl (defineStep tmpl) []

/-- One `for key in query` step of `QueryString.getURL`:
skip `undefined`, stringify scalars, `reduce`-join arrays (the empty
array's `reduce` throws — `none`). -/
def getURLStep (acc : Option (List (String × String)))
    (p : String × QVal) : Option (List (String × String)) :=
  match acc with
  | none => none
  | some ps =>
    match p.2 with
    | .undefined => some ps
    | .num n => some (assocSet ps p.1 (intToStr n))
    | .str s => some (assocSet ps p.1 s)
    | .arr es =>
      match joinComma es with
      | some j => some (assocSet ps p.1 j)
      | none => none

/-- `QueryString.getURL` down to the parameter list handed to
`URLSearchParams`. -/
def getURL (query : List (String × QVal)) :
    Option (List (String × String)) :=
  query.foldl getURLStep (some [])

/-- Query-object lookup (`query[k]`). -/
def qget (q : List (String × QVal)) (k : String) : Option QVal :=
  (q.find? (fun p => p.1 == k)).map (fun p => p.2)

end QueryString

namespace QueryString

theorem natDigitsRev_eq_digits (fuel n : Nat) (h : n ≤ fuel) :
    natDigitsRev fuel n = Nat.digits 10 n := by
  induction fuel generalizing n with
  | zero =>
    have : n = 0 := Nat.le_zero.mp h
    subst this
    simp [natDigitsRev]
  | succ fuel ih =>
    match n with
    | 0 => simp [natDigitsRev]
    | n + 1 =>
      rw [natDigitsRev,
        Nat.digits_def' (by norm_num : (1 : Nat) < 10) (Nat.succ_pos n)]
      congr 1
      refine ih _ ?_
      have hlt := Nat.div_lt_self (Nat.succ_pos n) (by norm_num : 1 < 10)
      omega

theorem digitVal_ofNat (d : Nat) (h : d < 10) :
    digitVal (Char.ofNat (48 + d)) = some d := by
  interval_cases d <;> rfl

theorem parseNatChars_natToStr (n : Nat) :
    parseNatChars (natToStr n).toList = some n := by
  by_cases h0 : n = 0
  · subst h0
    rfl
  · rw [natToStr, if_neg h0, natDigitsRev_eq_digits n n le_rfl]
    have hlist :
        (String.mk (((Nat.digits 10 n).map
          (fun d => Char.ofNat (48 + d))).reverse)).toList
        = ((Nat.digits 10 n).map (fun d => Char.ofNat (48 + d))).reverse := rfl
    rw [hlist]
    have hdig : ∀ d ∈ Nat.digits 10 n, d < 10 := by
      intro d hd
      exact Nat.digits_lt_base (by norm_num) hd
    have hne : ((Nat.digits 10 n).map
        (fun d => Char.ofNat (48 + d))).reverse ≠ [] := by
      simp [Nat.digits_ne_nil_iff_ne_zero.mpr h0]
    have hall : (((Nat.digits 10 n).map
        (fun d => Char.ofNat (48 + d))).reverse).all
          (fun c => (digitVal c).isSome) = true := by
      refine List.all_eq_true.mpr (fun c hc => ?_)
      simp only [List.mem_reverse, List.mem_map] at hc
      obtain ⟨d, hd, rfl⟩ := hc
      rw [digitVal_ofNat d (hdig d hd)]
      rfl
    rw [parseNatChars, if_neg hne, if_pos hall]
    congr 1
    rw [List.map_reverse, List.reverse_reverse, List.map_map]
    have hmap : (Nat.digits 10 n).map
        ((fun c => (digitVal c).getD 0) ∘ (fun d => Char.ofNat (48 + d)))
        = Nat.digits 10 n := by
      refine (List.map_congr_left (fun d hd => ?_)).trans (List.map_id _)
      show (digitVal (Char.ofNat (48 + d))).getD 0 = id d
      rw [digitVal_ofNat d (hdig d hd)]
      rfl
    rw [hmap]
    exact Nat.ofDigits_digits 10 n

theorem parseNum_natToStr (m : Nat) :
    parseNum (natToStr m) = some (m : Int) := by
  have hnat := parseNatChars_natToStr m
  rw [parseNum]
  cases hc : (natToStr m).toList with
  | nil =>
    rw [hc] at hnat
    rw [parseNatChars] at hnat
    simp at hnat
  | cons c cs =>
    rw [hc] at hnat
    have hall : ((c :: cs).all (fun x => (digitVal x).isSome)) = true := by
      by_contra hns
      rw [parseNatChars, if_neg (by simp), if_neg hns] at hnat
      exact Option.noConfusion hnat
    have hcd : (digitVal c).isSome = true :=
      List.all_eq_true.mp hall c (List.mem_cons_self c cs)
    have hcne : ¬ (c = '-') := by
      intro he
      subst he
      exact absurd hcd (by decide)
    dsimp only
    rw [if_neg hcne, hnat]
    rfl

theorem parseNum_intToStr (n : Int) : parseNum (intToStr n) = some n := by
  rw [intToStr]
  by_cases hneg : n < 0
  · rw [if_pos hneg, parseNum]
    have hta : ("-" ++ natToStr n.natAbs).toList
        = Char.ofNat 45 :: (natToStr n.natAbs).toList := by
      rw [toList_append]
      rfl
    rw [hta]
    dsimp only
    rw [if_pos (by decide)]
    rw [parseNatChars_natToStr n.natAbs]
    show some (-(n.natAbs : Int)) = some n
    congr 1
    omega
  · rw [if_neg hneg, parseNum_natToStr n.natAbs]
    congr 1
    omega

theorem strAppend_assoc (a b c : String) : (a ++ b) ++ c = a ++ (b ++ c) := by
  cases a
  cases b
  cases c
  show String.mk _ = String.mk _
  rw [List.append_assoc]

theorem splitCharAux_no_sep (sep : Char) :
    ∀ (cs cur : List Char), ¬ sep ∈ cs →
      splitCharAux sep cs cur = [String.mk (cur.reverse ++ cs)] := by
  intro cs
  induction cs with
  | nil =>
    intro cur h
    simp [splitCharAux]
  | cons c rest ih =>
    intro cur h
    rw [splitCharAux]
    have hcs : ¬ (c = sep) := by
      intro he
      exact h (by rw [he]; exact List.mem_cons_self _ _)
    rw [if_neg hcs, ih (c :: cur) (fun hm => h (List.mem_cons_of_mem _ hm))]
    congr 2
    simp

theorem splitCharAux_sep_append (sep : Char) :
    ∀ (xs cur rest : List Char), ¬ sep ∈ xs →
      splitCharAux sep (xs ++ sep :: rest) cur
        = String.mk (cur.reverse ++ xs) :: splitCharAux sep rest [] := by
  intro xs
  induction xs with
  | nil =>
    intro cur rest h
    rw [List.nil_append, splitCharAux, if_pos rfl]
    simp
  | cons x xs ih =>
    intro cur rest h
    rw [List.cons_append, splitCharAux]
    have hx : ¬ (x = sep) := by
      intro he
      exact h (by rw [he]; exact List.mem_cons_self _ _)
    rw [if_neg hx, ih (x :: cur) rest (fun hm => h (List.mem_cons_of_mem _ hm))]
    congr 2
    simp

theorem joinFoldl (t : List String) : ∀ (e b : String),
    t.foldl (fun acc x => acc ++ "," ++ x) (e ++ "," ++ b)
      = e ++ "," ++ t.foldl (fun acc x => acc ++ "," ++ x) b := by
  induction t with
  | nil =>
    intro e b
    rfl
  | cons c t ih =>
    intro e b
    rw [List.foldl_cons, List.foldl_cons]
    have hassoc : (e ++ "," ++ b) ++ "," ++ c = e ++ "," ++ (b ++ "," ++ c) := by
      simp only [strAppend_assoc]
    rw [hassoc, ih e (b ++ "," ++ c)]

theorem splitChar_join (t : List String) : ∀ (e : String),
    (∀ x ∈ e :: t, (x.toList.contains ',') = false) →
      splitChar ',' (t.foldl (fun acc x => acc ++ "," ++ x) e) = e :: t := by
  induction t with
  | nil =>
    intro e hnc
    rw [List.foldl_nil, splitChar]
    have hmem : ¬ ',' ∈ e.toList := by
      intro hm
      have h1 := hnc e (List.mem_cons_self _ _)
      simp at h1
      exact h1 hm
    rw [splitCharAux_no_sep ',' e.toList [] hmem]
    simp [mkToList]
  | cons b t ih =>
    intro e hnc
    rw [List.foldl_cons, joinFoldl t e b, splitChar]
    have htl : (e ++ "," ++ t.foldl (fun acc x => acc ++ "," ++ x) b).toList
        = e.toList ++ ',' :: (t.foldl (fun acc x => acc ++ "," ++ x) b).toList := by
      rw [toList_append, toList_append]
      simp
    have hmem : ¬ ',' ∈ e.toList := by
      intro hm
      have h1 := hnc e (List.mem_cons_self _ _)
      simp at h1
      exact h1 hm
    rw [htl, splitCharAux_sep_append ',' e.toList [] _ hmem]
    have hrest := ih b (fun x hx => hnc x (List.mem_cons_of_mem e hx))
    rw [splitChar] at hrest
    rw [hrest]
    simp [mkToList]

theorem join_contains_comma (e b : String) (t : List String) :
    (((b :: t).foldl (fun acc x => acc ++ "," ++ x) e).toList.contains ',')
      = true := by
  rw [List.foldl_cons, joinFoldl t e b, toList_append, toList_append]
  simp

/-- The parameter string `getURL` emits for a supported value. -/
def serEntry : QVal → String
  | .num n => intToStr n
  | .str s => s
  | .arr [] => ""
  | .arr (e :: t) => t.foldl (fun acc x => acc ++ "," ++ x) e
  | .undefined => ""

/-- The parameter list `getURL` emits for a supported query object. -/
def serParams (q : List (String × QVal)) : List (String × String) :=
  q.map (fun p => (p.1, serEntry p.2))

/-- Fit of one value to a template kind for the round trip: a number
for a number key, any string for a string key, and an array of at
least two comma-free strings for an array key. -/
def qvalOkFor : TKind → QVal → Bool
  | .num, .num _ => true
  | .str, .str _ => true
  | .arrStr, .arr es =>
      decide (2 ≤ es.length) && es.all (fun e => !(e.toList.contains ','))
  | _, _ => false

/-- Round-trip conformance of a query object against a template:
distinct keys, each a template key with a fitting value. -/
def queryOk (tmpl : List (String × TKind)) (q : List (String × QVal)) :
    Bool :=
  decide ((q.map Prod.fst).Nodup)
  && q.all (fun p =>
      match tfind tmpl p.1 with
      | some k => qvalOkFor k p.2
      | none => false)

theorem getURL_go (q : List (String × QVal)) :
    ∀ (ps : List (String × String)),
      (∀ p ∈ q, (ps.any (fun r => r.1 == p.1)) = false) →
      ((q.map Prod.fst).Nodup) →
      (∀ p ∈ q, ∃ k, qvalOkFor k p.2 = true) →
      q.foldl getURLStep (some ps) = some (ps ++ serParams q) := by
  induction q with
  | nil =>
    intro ps _ _ _
    simp [serParams]
  | cons p q ih =>
    obtain ⟨key, v⟩ := p
    intro ps hdisj hnodup hok
    rw [List.foldl_cons]
    have hd := hdisj (key, v) (List.mem_cons_self _ _)
    obtain ⟨k, hk⟩ := hok (key, v) (List.mem_cons_self _ _)
    have hnodup' : (q.map Prod.fst).Nodup := by
      simp only [List.map_cons, List.nodup_cons] at hnodup
      exact hnodup.2
    have hkeynot : ¬ key ∈ q.map Prod.fst := by
      simp only [List.map_cons, List.nodup_cons] at hnodup
      exact hnodup.1
    have hdisj' : ∀ r ∈ q,
        (((ps ++ [(key, serEntry v)]).any (fun x => x.1 == r.1)) = false) := by
      intro r hr
      rw [List.any_append]
      have h1 := hdisj r (List.mem_cons_of_mem _ hr)
      have h2 : ¬ (key = r.1) := by
        intro he
        exact hkeynot (he ▸ List.mem_map_of_mem Prod.fst hr)
      simp [h1, h2]
    have hok' : ∀ r ∈ q, ∃ k, qvalOkFor k r.2 = true :=
      fun r hr => hok r (List.mem_cons_of_mem _ hr)
    have hstep : getURLStep (some ps) (key, v)
        = some (ps ++ [(key, serEntry v)]) := by
      cases v with
      | num n =>
        show some (assocSet ps key (intToStr n)) = _
        rw [assocSet_not_mem ps key (intToStr n) hd]
        rfl
      | str s2 =>
        show some (assocSet ps key s2) = _
        rw [assocSet_not_mem ps key s2 hd]
        rfl
      | arr es =>
        cases k with
        | num => exact absurd hk (by simp [qvalOkFor])
        | str => exact absurd hk (by simp [qvalOkFor])
        | arrStr =>
          simp only [qvalOkFor, Bool.and_eq_true, decide_eq_true_eq] at hk
          cases es with
          | nil =>
            have := hk.1
            simp at this
          | cons e t =>
            show (match joinComma (e :: t) with
                  | some j => some (assocSet ps key j)
                  | none => none) = _
            rw [joinComma]
            dsimp only
            rw [assocSet_not_mem ps key _ hd]
            rfl
      | undefined =>
        cases k <;> exact absurd hk (by simp [qvalOkFor])
    rw [hstep, ih _ hdisj' hnodup' hok']
    rw [serParams, serParams, List.map_cons]
    simp

theorem define_go (tmpl : List (String × TKind)) (q : List (String × QVal)) :
    ∀ (acc : List (String × QVal)),
      (∀ p ∈ q, (acc.any (fun r => r.1 == p.1)) = false) →
      ((q.map Prod.fst).Nodup) →
      (∀ p ∈ q, ∃ k, tfind tmpl p.1 = some k ∧ qvalOkFor k p.2 = true) →
      (serParams q).foldl (defineStep tmpl) acc = acc ++ q := by
  induction q with
  | nil =>
    intro acc _ _ _
    simp [serParams]
  | cons p q ih =>
    obtain ⟨key, v⟩ := p
    intro acc hdisj hnodup hok
    rw [serParams, List.map_cons, List.foldl_cons]
    obtain ⟨k, hkfind, hk⟩ := hok (key, v) (List.mem_cons_self _ _)
    have hd := hdisj (key, v) (List.mem_cons_self _ _)
    have hnodup' : (q.map Prod.fst).Nodup := by
      simp only [List.map_cons, List.nodup_cons] at hnodup
      exact hnodup.2
    have hkeynot : ¬ key ∈ q.map Prod.fst := by
      simp only [List.map_cons, List.nodup_cons] at hnodup
      exact hnodup.1
    have hdisj' : ∀ r ∈ q,
        (((acc ++ [(key, v)]).any (fun x => x.1 == r.1)) = false) := by
      intro r hr
      rw [List.any_append]
      have h1 := hdisj r (List.mem_cons_of_mem _ hr)
      have h2 : ¬ (key = r.1) := by
        intro he
        exact hkeynot (he ▸ List.mem_map_of_mem Prod.fst hr)
      simp [h1, h2]
    have hok' : ∀ r ∈ q, ∃ k, tfind tmpl r.1 = some k ∧ qvalOkFor k r.2 = true :=
      fun r hr => hok r (List.mem_cons_of_mem _ hr)
    have hstep : defineStep tmpl acc (key, serEntry v) = acc ++ [(key, v)] := by
      rw [defineStep]
      dsimp only
      rw [hkfind]
      cases k with
      | num =>
        cases v with
        | num n =>
          show assocSet acc key (handleValue (serEntry (QVal.num n)) TKind.num) = _
          rw [serEntry, handleValue, parseNum_intToStr n]
          rw [assocSet_not_mem acc key _ hd]
        | str s2 => exact absurd hk (by simp [qvalOkFor])
        | arr es => exact absurd hk (by simp [qvalOkFor])
        | undefined => exact absurd hk (by simp [qvalOkFor])
      | str =>
        cases v with
        | str s2 =>
          show assocSet acc key (handleValue (serEntry (QVal.str s2)) TKind.str) = _
          rw [serEntry, handleValue, assocSet_not_mem acc key _ hd]
          exact fun h => TKind.noConfusion h
        | num n => exact absurd hk (by simp [qvalOkFor])
        | arr es => exact absurd hk (by simp [qvalOkFor])
        | undefined => exact absurd hk (by simp [qvalOkFor])
      | arrStr =>
        cases v with
        | arr es =>
          simp only [qvalOkFor, Bool.and_eq_true, decide_eq_true_eq] at hk
          match es, hk with
          | e :: b :: t, hk =>
            have hnc : ∀ x ∈ e :: b :: t, (x.toList.contains ',') = false := by
              intro x hx
              have := List.all_eq_true.mp hk.2 x hx
              simp only [Bool.not_eq_true'] at this
              exact this
            show assocSet acc key (handleArray (serEntry (QVal.arr (e :: b :: t)))) = _
            rw [serEntry, handleArray, if_pos (join_contains_comma e b t),
              splitChar_join (b :: t) e hnc,
              assocSet_not_mem acc key _ hd]
        | num n => exact absurd hk (by simp [qvalOkFor])
        | str s2 => exact absurd hk (by simp [qvalOkFor])
        | undefined => exact absurd hk (by simp [qvalOkFor])
    rw [hstep]
    have hfold := ih (acc ++ [(key, v)]) hdisj' hnodup' hok'
    rw [serParams] at hfold
    rw [hfold]
    simp

end QueryString

/-- C5: false as stated — a singleton array value serializes without a
comma (`["x"]` becomes `x`), so parsing the produced URL yields
`undefined` for that key, not the array back. -/
theorem C5_counterexample :
    QueryString.getURL
        [("page", QueryString.QVal.num 1),
         ("categories", QueryString.QVal.arr ["x"])]
      = some [("page", "1"), ("categories", "x")]
    ∧ QueryString.define [("page", "1"), ("categories", "x")]
        QueryString.userProfileTemplate
      = [("page", QueryString.QVal.num 1),
         ("categories", QueryString.QVal.undefined)]
    ∧ QueryString.QVal.undefined ≠ QueryString.QVal.arr ["x"] :=
  ⟨by decide, by decide, by decide⟩

/-- C5 (amended): the codec round-trips on query objects whose keys are
distinct template keys and whose values fit the template with every
array holding at least two comma-free strings: parsing the serialized
parameters returns the same query object. -/
theorem C5_roundtrip (tmpl : List (String × QueryString.TKind))
    (q : List (String × QueryString.QVal))
    (h : QueryString.queryOk tmpl q = true) :
    QueryString.getURL q = some (QueryString.serParams q)
    ∧ QueryString.define (QueryString.serParams q) tmpl = q := by
  rw [QueryString.queryOk, Bool.and_eq_true, decide_eq_true_eq] at h
  obtain ⟨hnodup, hall⟩ := h
  have hok : ∀ p ∈ q, ∃ k, QueryString.tfind tmpl p.1 = some k
      ∧ QueryString.qvalOkFor k p.2 = true := by
    intro p hp
    have hone := List.all_eq_true.mp hall p hp
    cases hf : QueryString.tfind tmpl p.1 with
    | none =>
      rw [hf] at hone
      exact absurd hone (by simp)
    | some k =>
      rw [hf] at hone
      exact ⟨k, rfl, hone⟩
  constructor
  · rw [QueryString.getURL,
      QueryString.getURL_go q [] (fun p _ => rfl) hnodup
        (fun p hp => (hok p hp).imp (fun k hk => hk.2)),
      List.nil_append]
  · rw [QueryString.define,
      QueryString.define_go tmpl q [] (fun p _ => rfl) hnodup hok,
      List.nil_append]

/-- Witness for C5: a page number, a search string and a two-element
category array round-trip through `getURL` and `define`. -/
theorem C5_roundtrip_witness :
    QueryString.queryOk QueryString.userProfileTemplate
        [("page", QueryString.QVal.num 2),
         ("search", QueryString.QVal.str "hello"),
         ("categories", QueryString.QVal.arr ["x", "y"])] = true
    ∧ (QueryString.getURL
         [("page", QueryString.QVal.num 2),
          ("search", QueryString.QVal.str "hello"),
          ("categories", QueryString.QVal.arr ["x", "y"])]
       = some (QueryString.serParams
         [("page", QueryString.QVal.num 2),
          ("search", QueryString.QVal.str "hello"),
          ("categories", QueryString.QVal.arr ["x", "y"])])
      ∧ QueryString.define
          (QueryString.serParams
            [("page", QueryString.QVal.num 2),
             ("search", QueryString.QVal.str "hello"),
             ("categories", QueryString.QVal.arr ["x", "y"])])
          QueryString.userProfileTemplate
        = [("page", QueryString.QVal.num 2),
           ("search", QueryString.QVal.str "hello"),
           ("categories", QueryString.QVal.arr ["x", "y"])]) :=
  ⟨by decide,
   C5_roundtrip QueryString.userProfileTemplate
     [("page", QueryString.QVal.num 2),
      ("search", QueryString.QVal.str "hello"),
      ("categories", QueryString.QVal.arr ["x", "y"])] (by decide)⟩

/-!
## Auth (src/lib/Auth.ts)

`getTokens` splits the Authorization header on spaces and gates on
`auth && auth[0] === "JWT" && auth[1] && refresh`; `authenticate` then
tries the access token and falls back to the refresh token.  Token
verification (`none` = a failed verification), access-token generation
and the profile read are oracles; a verified token yields its numeric
subject.
-/

namespace Auth

/-- The parts of the request `authenticate` looks at: the
`Authorization` header and the `refresh` cookie. -/
structure Request : Type where
  authHeader : Option String
  refreshCookie : Option String
deriving DecidableEq, Repr

/-- The header/cookie gate of `Auth.getTokens`. -/
def tokensOk (req : Request) : Bool :=
  match req.authHeader, req.refreshCookie with
  | some h, some r =>
    let auth := QueryString.splitChar ' ' h
    (auth.getD 0 "" == "JWT") && (auth.getD 1 "" != "") && (r != "")
  | _, _ => false

/-- `Auth.getTokens`: the access token is the header's second word. -/
def getTokens (req : Request) : Except Unit (String × String) :=
  match req.authHeader, req.refreshCookie with
  | some h, some r =>
    let auth := QueryString.splitChar ' ' h
    if (auth.getD 0 "" == "JWT") && (auth.getD 1 "" != "") && (r != "")
    then .ok (auth.getD 1 "", r)
    else .error ()
  | _, _ => .error ()

/-- `Auth.authenticate`: on a valid gate, use the access token if it
verifies to an existing profile, else verify the refresh token,
generate a fresh access token and read the profile; every failure is
the thrown `Auth.Error`. -/
def authenticate (verifyAccess verifyRefresh : String → Option Nat)
    (genAccess : Nat → String) (readProfile : Nat → Option Obj)
    (req : Request) : Except Unit (Option String × Obj) :=
  match getTokens req with
  | .error _ => .error ()
  | .ok (access, refresh) =>
    match (verifyAccess access).bind readProfile with
    | some profile => .ok (none, profile)
    | none =>
      match verifyRefresh refresh with
      | none => .error ()
      | some sub =>
        match readProfile sub with
        | none => .error ()
        | some profile => .ok (some (genAccess sub), profile)

end Auth

/-- C8: false as stated — the header is split on spaces and only the
first two words are examined, so `"JWT a b"` is not of the exact form
`JWT <token>` (it has three words) yet the request authenticates, with
`a` as the access token. -/
theorem C8_counterexample :
    (QueryString.splitChar ' ' "JWT a b").length ≠ 2
    ∧ Auth.authenticate
        (fun t => if t == "a" then some 1 else none)
        (fun _ => none) (fun _ => "")
        (fun i => if i == 1 then some [("id", Val.num 1)] else none)
        ⟨some "JWT a b", some "r"⟩
      = .ok (none, [("id", Val.num 1)]) :=
  ⟨by decide, by rfl⟩

/-- C8 (amended): authentication never succeeds without the gate —
whenever the Authorization header is missing, its first space-separated
word is not `JWT`, its second word is empty or absent, or the refresh
cookie is missing or empty, `authenticate` throws no matter how the
token oracles behave (in particular even when the access token is
valid). -/
theorem C8_authenticate_gate (verifyAccess verifyRefresh : String → Option Nat)
    (genAccess : Nat → String) (readProfile : Nat → Option Obj)
    (req : Auth.Request) (hgate : Auth.tokensOk req = false) :
    Auth.authenticate verifyAccess verifyRefresh genAccess readProfile req
      = .error () := by
  rw [Auth.authenticate]
  have hget : Auth.getTokens req = .error () := by
    rw [Auth.getTokens]
    rw [Auth.tokensOk] at hgate
    cases hh : req.authHeader with
    | none => rfl
    | some h =>
      cases hr : req.refreshCookie with
      | none => rfl
      | some r =>
        rw [hh, hr] at hgate
        dsimp only at hgate ⊢
        simp only [List.getD_eq_getElem?_getD] at hgate
        simp at hgate ⊢
        tauto
  rw [hget]

/-- Witness for C8: a `Bearer` header with a refresh cookie, against
oracles that accept every token, still fails to authenticate. -/
theorem C8_authenticate_gate_witness :
    Auth.tokensOk ⟨some "Bearer abc", some "r"⟩ = false
    ∧ Auth.authenticate (fun _ => some 1) (fun _ => some 1) (fun _ => "t")
        (fun _ => some [("id", Val.num 1)])
        ⟨some "Bearer abc", some "r"⟩ = .error () :=
  ⟨by decide,
   C8_authenticate_gate (fun _ => some 1) (fun _ => some 1) (fun _ => "t")
     (fun _ => some [("id", Val.num 1)])
     ⟨some "Bearer abc", some "r"⟩ (by decide)⟩

/-!
## APIHandler.query (src/db/APIHandler.ts 117-176, src/db/APIRouter.ts 105-120)
-/

namespace APIHandler

/-- The message of the error `QueryString.getURL` raises. -/
def qsErrorMessage : String := "Error at defining the URL from the query string."

/-- The paginated result object `APIHandler.query` returns. -/
structure ResultGroup : Type where
  count : Nat
  hasPreviousPage : Bool
  hasNextPage : Bool
  previous : Option (List (String × String))
  next : Option (List (String × String))
  results : List Obj
deriving DecidableEq, Repr

/-- `if (!page || page < 1) page = 1` (and `20` for `size`): a missing,
undefined or sub-1 number falls back to the default. -/
def clampParam (q : List (String × QueryString.QVal)) (k : String)
    (dflt : Int) : Int :=
  match QueryString.qget q k with
  | some (.num n) => if n < 1 then dflt else n
  | _ => dflt

/-- `APIHandler.query` on the UserProfile collections: parse the search
parameters, clamp page and size, fetch `size + 1` objects at offset
`(page - 1) * size`, compute the page flags, the count and the
neighbour-page URLs, and serialize the assembled objects without
sensitive data.  The `QueryString.Error` that `getURL` can raise
reaches the catch block, which returns its message. -/
def query (s : Store) (cfg : Config)
    (params : List (String × String)) : Except String ResultGroup :=
  let q := QueryString.define params QueryString.userProfileTemplate
  let page := clampParam q "page" 1
  let size := clampParam q "size" 20
  let components := Transaction.query s cfg (size + 1).toNat
    ((page - 1) * size).toNat
  let hasPreviousPage := decide (0 < page - 1)
  let hasNextPage := decide (size < (components.length : Int))
  let count := if hasNextPage then components.length - 1
               else components.length
  let prev : Except String (Option (List (String × String))) :=
    if hasPreviousPage then
      match QueryString.getURL
        (assocSet q "page" (QueryString.QVal.num (page - 1))) with
      | some u => .ok (some u)
      | none => .error qsErrorMessage
    else .ok none
  match prev with
  | .error m => .error m
  | .ok previous =>
    let nxt : Except String (Option (List (String × String))) :=
      if hasNextPage then
        match QueryString.getURL
          (assocSet q "page" (QueryString.QVal.num (page + 1))) with
        | some u => .ok (some u)
        | none => .error qsErrorMessage
      else .ok none
    match nxt with
    | .error m => .error m
    | .ok next =>
      let results := components.map (fun comps =>
        sensitiveRemove (combine (serializeComps comps)))
      .ok { count := count, hasPreviousPage := hasPreviousPage,
            hasNextPage := hasNextPage, previous := previous,
            next := next, results := results }

end APIHandler

/-- No sensitive key and no falsy value in a serialized object. -/
def sensOk (o : Obj) : Bool :=
  o.all (fun p => !(APIHandler.sensitiveToRemove.contains p.1) && truthy p.2)

/-- `sensOk` of the object an APIHandler method returns (vacuous on the
error outcomes, which carry no serialized record). -/
def ApiResult.sensOkB : ApiResult → Bool
  | .ok o => sensOk o
  | _ => true

/-- `sensOk` of every object in a query result. -/
def queryResultsOk : Except String APIHandler.ResultGroup → Bool
  | .ok r => r.results.all sensOk
  | .error _ => true

theorem sensOk_sensitiveRemove (o : Obj) :
    sensOk (APIHandler.sensitiveRemove o) = true := by
  rw [sensOk]
  refine List.all_eq_true.mpr (fun p hp => ?_)
  rw [APIHandler.sensitiveRemove] at hp
  rw [List.mem_filter] at hp
  obtain ⟨hp1, hg⟩ := hp
  rw [List.mem_filter] at hp1
  obtain ⟨-, hf⟩ := hp1
  simp only [Bool.and_eq_true]
  exact ⟨hf, hg⟩

/-- C9: every serialized object a handler operation returns to the
client has been through `sensitive.remove`: it holds no `password`,
`user` or `xata` key and no key with a falsy value — in particular the
stored password hash never appears in a response. -/
theorem C9_no_sensitive_leak (fail : Nat → Bool) (hash : String → String)
    (cfg : Config) (id : Nat) (data : Obj) (s : Store) (st : St)
    (params : List (String × String)) :
    ApiResult.sensOkB (APIHandler.get s cfg id) = true
    ∧ ApiResult.sensOkB (APIHandler.create fail hash cfg data st).1 = true
    ∧ ApiResult.sensOkB (APIHandler.update fail hash cfg id data st).1 = true
    ∧ ApiResult.sensOkB (APIHandler.delete fail cfg id st).1 = true
    ∧ queryResultsOk (APIHandler.query s cfg params) = true := by
  refine ⟨?_, ?_, ?_, ?_, ?_⟩
  · rw [APIHandler.get]
    split
    · rfl
    · exact sensOk_sensitiveRemove _
  · rw [APIHandler.create]
    split
    · rfl
    · dsimp only
      split
      · rfl
      · exact sensOk_sensitiveRemove _
  · rw [APIHandler.update]
    split
    · rfl
    · dsimp only
      split
      · rfl
      · split
        · rfl
        · exact sensOk_sensitiveRemove _
  · rw [APIHandler.delete]
    split
    · rfl
    · split
      · rfl
      · exact sensOk_sensitiveRemove _
  · rw [APIHandler.query]
    dsimp only
    split
    · rfl
    · split
      · rfl
      · rw [queryResultsOk]
        refine List.all_eq_true.mpr (fun o ho => ?_)
        rw [List.mem_map] at ho
        obtain ⟨c, -, rfl⟩ := ho
        exact sensOk_sensitiveRemove _

theorem one_le_clampParam (q : List (String × QueryString.QVal))
    (k : String) (dflt : Int) (h : 1 ≤ dflt) :
    1 ≤ APIHandler.clampParam q k dflt := by
  rw [APIHandler.clampParam]
  split
  · split <;> omega
  · exact h

theorem optURL_ok (flag : Bool) (pq : List (String × QueryString.QVal))
    (out : Option (List (String × String)))
    (h : (if flag then
            match QueryString.getURL pq with
            | some u => Except.ok (some u)
            | none => Except.error APIHandler.qsErrorMessage
          else Except.ok none) = Except.ok out) :
    out = (if flag = true then QueryString.getURL pq else none) := by
  cases flag with
  | false =>
    simp only [Bool.false_eq_true, if_false] at h ⊢
    injection h with h1
    exact h1.symm
  | true =>
    simp only [if_true] at h ⊢
    cases hgu : QueryString.getURL pq with
    | some u =>
      rw [hgu] at h
      injection h with h1
      exact h1.symm
    | none =>
      rw [hgu] at h
      exact absurd h (by simp)

/-- C10: false as stated — with two assembled objects and `size = 1`
the handler reports `count = 1` but puts both objects (the probe
record included) into `results`. -/
theorem C10_counterexample :
    APIHandler.query
        ⟨[[(0, [("user", Val.ref 10), ("username", Val.str "u")]),
           (1, [("user", Val.ref 11), ("username", Val.str "v")])],
          [(10, [("email", Val.str "a@b")]),
           (11, [("email", Val.str "c@d")])]], 12⟩
        userProfileConfig [("size", "1")]
      = .ok { count := 1, hasPreviousPage := false, hasNextPage := true,
              previous := none,
              next := some [("size", "1"), ("page", "2")],
              results := [[("email", Val.str "a@b"), ("username", Val.str "u")],
                          [("id", Val.num 1), ("email", Val.str "c@d"),
                           ("username", Val.str "v")]] }
    ∧ ([[("email", Val.str "a@b"), ("username", Val.str "u")],
        [("id", Val.num 1), ("email", Val.str "c@d"),
         ("username", Val.str "v")]] : List Obj).length ≠ 1 :=
  ⟨by rfl, by decide⟩

/-- C10 (amended): page and size are clamped to at least 1 (20 by
default for size), `size + 1` main records are fetched at offset
`(page - 1) * size`, the flags, count and neighbour-page URLs are as
the claim says — but `results` holds every assembled object, that is
`count + 1` of them (the probe record included) whenever `hasNextPage`
is set, not `count`. -/
theorem C10_query_pagination (s : Store) (cfg : Config)
    (params : List (String × String)) (r : APIHandler.ResultGroup)
    (hok : APIHandler.query s cfg params = .ok r) :
    let q := QueryString.define params QueryString.userProfileTemplate
    let page := APIHandler.clampParam q "page" 1
    let size := APIHandler.clampParam q "size" 20
    let fetched := Transaction.query s cfg (size + 1).toNat
      ((page - 1) * size).toNat
    1 ≤ page ∧ 1 ≤ size
    ∧ r.hasPreviousPage = decide (1 < page)
    ∧ r.hasNextPage = decide (size < (fetched.length : Int))
    ∧ r.count = (if size < (fetched.length : Int) then fetched.length - 1
                 else fetched.length)
    ∧ r.results.length = r.count + (if r.hasNextPage then 1 else 0)
    ∧ r.previous = (if r.hasPreviousPage then
        QueryString.getURL (assocSet q "page"
          (QueryString.QVal.num (page - 1))) else none)
    ∧ r.next = (if r.hasNextPage then
        QueryString.getURL (assocSet q "page"
          (QueryString.QVal.num (page + 1))) else none)
    ∧ r.results = fetched.map (fun comps =>
        APIHandler.sensitiveRemove (APIHandler.combine
          (APIHandler.serializeComps comps))) := by
  dsimp only
  rw [APIHandler.query] at hok
  dsimp only at hok
  split at hok
  · exact absurd hok (by simp)
  · rename_i previous hpv
    split at hok
    · exact absurd hok (by simp)
    · rename_i next hnx
      injection hok with hr
      subst hr
      dsimp only
      have hs1 : 1 ≤ APIHandler.clampParam
          (QueryString.define params QueryString.userProfileTemplate)
          "size" 20 :=
        one_le_clampParam _ "size" 20 (by norm_num)
      refine ⟨one_le_clampParam _ "page" 1 (by norm_num), hs1,
        decide_eq_decide.mpr (by omega), rfl, ?_, ?_,
        optURL_ok _ _ _ hpv, optURL_ok _ _ _ hnx, rfl⟩
      · simp only [decide_eq_true_eq]
      · rw [List.length_map]
        by_cases hlt : (APIHandler.clampParam
              (QueryString.define params QueryString.userProfileTemplate)
              "size" 20)
            < ((Transaction.query s cfg
                (APIHandler.clampParam
                  (QueryString.define params QueryString.userProfileTemplate)
                  "size" 20 + 1).toNat
                ((APIHandler.clampParam
                    (QueryString.define params QueryString.userProfileTemplate)
                    "page" 1 - 1)
                  * APIHandler.clampParam
                    (QueryString.define params QueryString.userProfileTemplate)
                    "size" 20).toNat).length : Int)
        · simp only [hlt, decide_eq_true_eq, if_pos hlt, if_true]
          omega
        · simp only [hlt, decide_eq_true_eq, if_neg hlt, if_false]
          omega

/-- Witness for C10: the two-object store with `size = 1`. -/
theorem C10_query_pagination_witness :
    APIHandler.query
        ⟨[[(0, [("user", Val.ref 10), ("username", Val.str "u")]),
           (1, [("user", Val.ref 11), ("username", Val.str "v")])],
          [(10, [("email", Val.str "a@b")]),
           (11, [("email", Val.str "c@d")])]], 12⟩
        userProfileConfig [("size", "2")]
      = .ok { count := 2, hasPreviousPage := false, hasNextPage := false,
              previous := none, next := none,
              results := [[("email", Val.str "a@b"), ("username", Val.str "u")],
                          [("id", Val.num 1), ("email", Val.str "c@d"),
                           ("username", Val.str "v")]] }
    ∧ (let q := QueryString.define [("size", "2")]
         QueryString.userProfileTemplate
       let page := APIHandler.clampParam q "page" 1
       let size := APIHandler.clampParam q "size" 20
       let fetched := Transaction.query
         ⟨[[(0, [("user", Val.ref 10), ("username", Val.str "u")]),
            (1, [("user", Val.ref 11), ("username", Val.str "v")])],
           [(10, [("email", Val.str "a@b")]),
            (11, [("email", Val.str "c@d")])]], 12⟩
         userProfileConfig (size + 1).toNat ((page - 1) * size).toNat
       1 ≤ page ∧ 1 ≤ size
       ∧ (APIHandler.ResultGroup.mk 2 false false none none
            [[("email", Val.str "a@b"), ("username", Val.str "u")],
             [("id", Val.num 1), ("email", Val.str "c@d"),
              ("username", Val.str "v")]]).hasPreviousPage
         = decide (1 < page)
       ∧ (APIHandler.ResultGroup.mk 2 false false none none
            [[("email", Val.str "a@b"), ("username", Val.str "u")],
             [("id", Val.num 1), ("email", Val.str "c@d"),
              ("username", Val.str "v")]]).hasNextPage
         = decide (size < (fetched.length : Int))
       ∧ (APIHandler.ResultGroup.mk 2 false false none none
            [[("email", Val.str "a@b"), ("username", Val.str "u")],
             [("id", Val.num 1), ("email", Val.str "c@d"),
              ("username", Val.str "v")]]).count
         = (if size < (fetched.length : Int) then fetched.length - 1
            else fetched.length)
       ∧ (APIHandler.ResultGroup.mk 2 false false none none
            [[("email", Val.str "a@b"), ("username", Val.str "u")],
             [("id", Val.num 1), ("email", Val.str "c@d"),
              ("username", Val.str "v")]]).results.length
         = (APIHandler.ResultGroup.mk 2 false false none none
            [[("email", Val.str "a@b"), ("username", Val.str "u")],
             [("id", Val.num 1), ("email", Val.str "c@d"),
              ("username", Val.str "v")]]).count
           + (if (APIHandler.ResultGroup.mk 2 false false none none
                [[("email", Val.str "a@b"), ("username", Val.str "u")],
                 [("id", Val.num 1), ("email", Val.str "c@d"),
                  ("username", Val.str "v")]]).hasNextPage then 1 else 0)
       ∧ (APIHandler.ResultGroup.mk 2 false false none none
            [[("email", Val.str "a@b"), ("username", Val.str "u")],
             [("id", Val.num 1), ("email", Val.str "c@d"),
              ("username", Val.str "v")]]).previous
         = (if (APIHandler.ResultGroup.mk 2 false false none none
              [[("email", Val.str "a@b"), ("username", Val.str "u")],
               [("id", Val.num 1), ("email", Val.str "c@d"),
                ("username", Val.str "v")]]).hasPreviousPage then
             QueryString.getURL (assocSet q "page"
               (QueryString.QVal.num (page - 1))) else none)
       ∧ (APIHandler.ResultGroup.mk 2 false false none none
            [[("email", Val.str "a@b"), ("username", Val.str "u")],
             [("id", Val.num 1), ("email", Val.str "c@d"),
              ("username", Val.str "v")]]).next
         = (if (APIHandler.ResultGroup.mk 2 false false none none
              [[("email", Val.str "a@b"), ("username", Val.str "u")],
               [("id", Val.num 1), ("email", Val.str "c@d"),
                ("username", Val.str "v")]]).hasNextPage then
             QueryString.getURL (assocSet q "page"
               (QueryString.QVal.num (page + 1))) else none)
       ∧ (APIHandler.ResultGroup.mk 2 false false none none
            [[("email", Val.str "a@b"), ("username", Val.str "u")],
             [("id", Val.num 1), ("email", Val.str "c@d"),
              ("username", Val.str "v")]]).results
         = fetched.map (fun comps =>
             APIHandler.sensitiveRemove (APIHandler.combine
               (APIHandler.serializeComps comps)))) :=
  ⟨by rfl,
   C10_query_pagination
     ⟨[[(0, [("user", Val.ref 10), ("username", Val.str "u")]),
        (1, [("user", Val.ref 11), ("username", Val.str "v")])],
       [(10, [("email", Val.str "a@b")]),
        (11, [("email", Val.str "c@d")])]], 12⟩
     userProfileConfig [("size", "2")]
     (APIHandler.ResultGroup.mk 2 false false none none
       [[("email", Val.str "a@b"), ("username", Val.str "u")],
        [("id", Val.num 1), ("email", Val.str "c@d"),
         ("username", Val.str "v")]])
     (by rfl)⟩

end SimpleChat
